import Mathlib

/-!
Verification of the SysY compiler semantic-lowering pipeline.

This development is a shallow embedding of the parts of the compiler that the
specification describes:

* the AST constant folder (src/ast/constant_folding.h, class ConstantFolder),
* the optimization driver (src/ast/ast_optimizer.h, ASTOptimizer::optimize),
* the compile-time constant evaluator (src/codegen/ir_generator.cpp,
  IRGenerator::evaluateConstExpr),
* the global-array initializer builder (IRGenerator::generateInitVal,
  inner lambda buildArrayInit),
* the condition-position boolean coercion of if/while lowering
  (IRGenerator::generateStmt),
* the scalar initializer lowering (IRGenerator::generateInitVal),
* array-parameter preloading (IRGenerator::generateFunction) together with
  the lvalue access paths (generateLVal / generateLValAddress),
* the vector-element address-mode lowering (generateLValAddress).

Machine integers: C++ `int` is modelled as mathematical integers reduced into
the 32-bit two's-complement window by an explicit wrap.  C++ `/` and `%` on
int are truncating (toward zero) division, i.e. Int.tdiv / Int.tmod.

Floating point: C++ `float` (IEEE-754 binary32) values are treated as an
abstract type `F` together with a structure `FloatSem F` bundling the float
operations the source performs.  Every theorem below that touches floats
holds for an arbitrary such semantics: none of the verified claims depends
on the numeric results of float arithmetic, only on which AST/IR shapes the
compiler produces around them.
-/

/-- Binary operators of the AST (BinaryExprAST::Operator in src/ast/ast.h). -/
inductive BinOp where
  | ADD | SUB | MUL | DIV | MOD
  | LT | GT | LE | GE | EQ | NE
  | AND | OR
deriving DecidableEq, Repr

/-- Unary operators of the AST (UnaryExprAST::Operator in src/ast/ast.h). -/
inductive UnOp where
  | PLUS | MINUS | NOT
deriving DecidableEq, Repr

/-- Reduce an integer into the 32-bit two's-complement window
[-2^31, 2^31).  This models the value stored in a C++ `int`. -/
def wrap32 (x : Int) : Int := (x + 2 ^ 31) % 2 ^ 32 - 2 ^ 31

/-- Membership in the 32-bit two's-complement window. -/
def int32Range (x : Int) : Prop := -(2 ^ 31) ≤ x ∧ x < 2 ^ 31

instance (x : Int) : Decidable (int32Range x) := by
  unfold int32Range; infer_instance

theorem wrap32_mem (x : Int) : int32Range (wrap32 x) := by
  unfold wrap32 int32Range
  constructor
  · have h := Int.emod_nonneg (x + 2 ^ 31) (by norm_num : (2 ^ 32 : Int) ≠ 0)
    omega
  · have h := Int.emod_lt_of_pos (x + 2 ^ 31) (by norm_num : (0 : Int) < 2 ^ 32)
    omega

theorem wrap32_eq_self {x : Int} (h : int32Range x) : wrap32 x = x := by
  unfold wrap32
  unfold int32Range at h
  have : (x + 2 ^ 31) % 2 ^ 32 = x + 2 ^ 31 :=
    Int.emod_eq_of_lt (by omega) (by omega)
  omega

/-- C++ truth test for int (`x != 0`). -/
def intTruth (x : Int) : Bool := x ≠ 0

/-- Integer version of ConstantFolder::evaluateBinaryOp
(src/ast/constant_folding.h lines 285-302).  C++ `int` arithmetic is
modelled as wrapping 32-bit two's-complement arithmetic with truncating
division; division and modulo with zero right operand yield 0; comparisons
and logical operators yield 0/1 using C truth. -/
def evaluateBinaryOpInt (op : BinOp) (lhs rhs : Int) : Int :=
  match op with
  | .ADD => wrap32 (lhs + rhs)
  | .SUB => wrap32 (lhs - rhs)
  | .MUL => wrap32 (lhs * rhs)
  | .DIV => if rhs ≠ 0 then wrap32 (Int.tdiv lhs rhs) else 0
  | .MOD => if rhs ≠ 0 then Int.tmod lhs rhs else 0
  | .LT => if lhs < rhs then 1 else 0
  | .GT => if lhs > rhs then 1 else 0
  | .LE => if lhs ≤ rhs then 1 else 0
  | .GE => if lhs ≥ rhs then 1 else 0
  | .EQ => if lhs = rhs then 1 else 0
  | .NE => if lhs ≠ rhs then 1 else 0
  | .AND => if intTruth lhs ∧ intTruth rhs then 1 else 0
  | .OR => if intTruth lhs ∨ intTruth rhs then 1 else 0

/-- Integer version of ConstantFolder::evaluateUnaryOp
(src/ast/constant_folding.h lines 326-333). -/
def evaluateUnaryOpInt (op : UnOp) (operand : Int) : Int :=
  match op with
  | .PLUS => operand
  | .MINUS => wrap32 (-operand)
  | .NOT => if operand = 0 then 1 else 0

/-- Abstract semantics of C++ `float` (IEEE-754 binary32).  The fields
are exactly the float operations the compiler source performs; `nonzero`
models the C++ truth test `x != 0.0f` (also used by the guard of float
division). -/
structure FloatSem (F : Type) where
  zero : F
  one : F
  add : F → F → F
  sub : F → F → F
  mul : F → F → F
  div : F → F → F
  neg : F → F
  nonzero : F → Bool
  ltb : F → F → Bool
  gtb : F → F → Bool
  leb : F → F → Bool
  geb : F → F → Bool
  eqb : F → F → Bool
  neb : F → F → Bool

/-- Float version of ConstantFolder::evaluateBinaryOp
(src/ast/constant_folding.h lines 305-323).  Note: the MOD case returns
0.0f unconditionally (the source comment says float does not support
modulo), and comparisons yield the float literals 1.0f / 0.0f. -/
def evaluateBinaryOpFloat {F : Type} (sem : FloatSem F) (op : BinOp) (lhs rhs : F) : F :=
  match op with
  | .ADD => sem.add lhs rhs
  | .SUB => sem.sub lhs rhs
  | .MUL => sem.mul lhs rhs
  | .DIV => if sem.nonzero rhs then sem.div lhs rhs else sem.zero
  | .MOD => sem.zero
  | .LT => if sem.ltb lhs rhs then sem.one else sem.zero
  | .GT => if sem.gtb lhs rhs then sem.one else sem.zero
  | .LE => if sem.leb lhs rhs then sem.one else sem.zero
  | .GE => if sem.geb lhs rhs then sem.one else sem.zero
  | .EQ => if sem.eqb lhs rhs then sem.one else sem.zero
  | .NE => if sem.neb lhs rhs then sem.one else sem.zero
  | .AND => if sem.nonzero lhs ∧ sem.nonzero rhs then sem.one else sem.zero
  | .OR => if sem.nonzero lhs ∨ sem.nonzero rhs then sem.one else sem.zero

/-- Float version of ConstantFolder::evaluateUnaryOp
(src/ast/constant_folding.h lines 336-343). -/
def evaluateUnaryOpFloat {F : Type} (sem : FloatSem F) (op : UnOp) (operand : F) : F :=
  match op with
  | .PLUS => operand
  | .MINUS => sem.neg operand
  | .NOT => if sem.nonzero operand then sem.zero else sem.one

/-- A concrete (demonstration) float semantics over Int, used to obtain
closed instances of theorems that hold for every FloatSem. -/
def demoSem : FloatSem Int where
  zero := 0
  one := 1
  add := (· + ·)
  sub := (· - ·)
  mul := (· * ·)
  div := fun a b => Int.tdiv a b
  neg := (-·)
  nonzero := fun a => a ≠ 0
  ltb := fun a b => a < b
  gtb := fun a b => b < a
  leb := fun a b => a ≤ b
  geb := fun a b => b ≤ a
  eqb := fun a b => a = b
  neb := fun a b => a ≠ b

mutual

/-- AST expressions (the ExprAST hierarchy of src/ast/ast.h).  Children
stored in std::vector in the source are modelled by the companion list
type ExprList.  Line numbers carry no semantic content for the folder and
are omitted. -/
inductive Expr (F : Type) where
  | intConst (v : Int)
  | floatConst (v : F)
  | lval (name : String) (indices : ExprList F)
  | binary (op : BinOp) (lhs rhs : Expr F)
  | unary (op : UnOp) (operand : Expr F)
  | call (callee : String) (args : ExprList F)
  | stringLit (s : String)

/-- A list of expressions (std::vector of ExprAST children). -/
inductive ExprList (F : Type) where
  | nil
  | cons (head : Expr F) (tail : ExprList F)

end

/-- ExprAST::isConstant: true exactly on IntConstExprAST and
FloatConstExprAST (src/ast/ast.h lines 146, 168; the base returns false). -/
def Expr.isConstant {F : Type} : Expr F → Bool
  | .intConst _ => true
  | .floatConst _ => true
  | _ => false

/-- The dyn_cast chain of foldAndReplaceExpr applied to the two folded
operands of a binary expression (src/ast/constant_folding.h lines 194-231):
two int literals collapse under the integer semantics, two float literals
collapse under the float semantics, anything else rebuilds the binary
expression with the folded operands. -/
def binaryCollapse {F : Type} (sem : FloatSem F) (op : BinOp) (l r : Expr F) : Expr F :=
  match l, r with
  | .intConst a, .intConst b => .intConst (evaluateBinaryOpInt op a b)
  | .floatConst a, .floatConst b => .floatConst (evaluateBinaryOpFloat sem op a b)
  | l, r => .binary op l r

/-- The dyn_cast chain of foldAndReplaceExpr applied to the folded operand
of a unary expression (src/ast/constant_folding.h lines 236-260). -/
def unaryCollapse {F : Type} (sem : FloatSem F) (op : UnOp) (x : Expr F) : Expr F :=
  match x with
  | .intConst a => .intConst (evaluateUnaryOpInt op a)
  | .floatConst a => .floatConst (evaluateUnaryOpFloat sem op a)
  | x => .unary op x

mutual

/-- ConstantFolder::foldAndReplaceExpr (src/ast/constant_folding.h lines
178-282), as a tree transformation.  Constant expressions are returned as
clones (structurally equal); a binary expression whose folded operands are
both int literals or both float literals collapses to a literal; all other
nodes are rebuilt with folded children.

Note on allocation: in the source every branch returns a freshly allocated
node (clone() or std::make_unique), so for a non-null input the returned
pointer is never equal to the input pointer.  The callers in foldStmt /
foldInitVal compare these pointers to decide their `changed` flag; that
comparison is therefore true at every non-null expression position, which is
modelled explicitly where those callers are embedded below. -/
def foldAndReplaceExpr {F : Type} (sem : FloatSem F) : Expr F → Expr F
  | .intConst v => .intConst v
  | .floatConst v => .floatConst v
  | .binary op lhs rhs =>
      binaryCollapse sem op (foldAndReplaceExpr sem lhs) (foldAndReplaceExpr sem rhs)
  | .unary op operand =>
      unaryCollapse sem op (foldAndReplaceExpr sem operand)
  | .call callee args => .call callee (foldExprList sem args)
  | .lval name indices => .lval name (foldExprList sem indices)
  | .stringLit s => .stringLit s

/-- Folds every expression of a child list (the loops over call arguments
and lvalue indices in foldAndReplaceExpr). -/
def foldExprList {F : Type} (sem : FloatSem F) : ExprList F → ExprList F
  | .nil => .nil
  | .cons e t => .cons (foldAndReplaceExpr sem e) (foldExprList sem t)

end

mutual

/-- Initializer values (InitValAST hierarchy): a single expression or a
brace list of initializers. -/
inductive InitVal (F : Type) where
  | exprInit (e : Expr F)
  | listInit (vals : InitValList F)

/-- A list of initializer values (std::vector of InitValAST children). -/
inductive InitValList (F : Type) where
  | nil
  | cons (head : InitVal F) (tail : InitValList F)

end

/-- One variable definition (VarDefAST): name, array dimension expressions
and an optional initializer.  ConstDefAST has the same shape. -/
structure VarDef (F : Type) where
  name : String
  arraySizes : ExprList F
  initVal : Option (InitVal F)

/-- Declarations (DeclAST): variable or constant declarations.  The folder
never inspects the declared base type, so it is not modelled here. -/
inductive Decl (F : Type) where
  | varDecl (defs : List (VarDef F))
  | constDecl (defs : List (VarDef F))

mutual

/-- Statements (StmtAST hierarchy).  An AssignStmtAST stores the target
lvalue expression and the assigned expression; BlockAST stores block items,
each a statement or a declaration. -/
inductive Stmt (F : Type) where
  | assign (lv : Expr F) (e : Expr F)
  | exprStmt (e : Option (Expr F))
  | ret (e : Option (Expr F))
  | ifS (cond : Expr F) (thenS : Stmt F) (elseS : Option (Stmt F))
  | whileS (cond : Expr F) (body : Stmt F)
  | breakS
  | continueS
  | block (items : BlockItems F)

/-- Block items (std::vector of BlockItemAST: StmtBlockItemAST or
DeclBlockItemAST). -/
inductive BlockItems (F : Type) where
  | nil
  | consStmt (s : Stmt F) (t : BlockItems F)
  | consDecl (d : Decl F) (t : BlockItems F)

end

/-- A function definition (FunctionAST).  The folder only traverses the
body block (ConstantFolder::foldFunction), so the return type and the
formal parameters are not modelled here. -/
structure Function (F : Type) where
  name : String
  body : BlockItems F

/-- A compilation unit (CompUnitAST): global declarations then functions. -/
structure CompUnit (F : Type) where
  decls : List (Decl F)
  funcs : List (Function F)

mutual

/-- ConstantFolder::foldInitVal (src/ast/constant_folding.h lines 69-94).
For an expression initializer the source replaces the expression when the
returned pointer differs from the stored one; foldAndReplaceExpr always
returns a fresh node, so the flag is true for every expression initializer. -/
def foldInitVal {F : Type} (sem : FloatSem F) : InitVal F → InitVal F × Bool
  | .exprInit e => (.exprInit (foldAndReplaceExpr sem e), true)
  | .listInit vals =>
      let r := foldInitValList sem vals
      (.listInit r.1, r.2)

/-- Folds each element of an initializer list, OR-ing the change flags. -/
def foldInitValList {F : Type} (sem : FloatSem F) : InitValList F → InitValList F × Bool
  | .nil => (.nil, false)
  | .cons v t =>
      let rv := foldInitVal sem v
      let rt := foldInitValList sem t
      (.cons rv.1 rt.1, rv.2 || rt.2)

end

/-- Folds the initializer of one definition (the per-definition loop bodies
of ConstantFolder::foldDecl, lines 50-64: only definitions with an
initializer contribute). -/
def foldVarDef {F : Type} (sem : FloatSem F) (d : VarDef F) : VarDef F × Bool :=
  match d.initVal with
  | none => (d, false)
  | some iv =>
      let r := foldInitVal sem iv
      ({ d with initVal := some r.1 }, r.2)

/-- Folds a list of definitions, OR-ing the change flags. -/
def foldVarDefList {F : Type} (sem : FloatSem F) : List (VarDef F) → List (VarDef F) × Bool
  | [] => ([], false)
  | d :: t =>
      let rd := foldVarDef sem d
      let rt := foldVarDefList sem t
      (rd.1 :: rt.1, rd.2 || rt.2)

/-- ConstantFolder::foldDecl (src/ast/constant_folding.h lines 46-67). -/
def foldDecl {F : Type} (sem : FloatSem F) : Decl F → Decl F × Bool
  | .varDecl defs =>
      let r := foldVarDefList sem defs
      (.varDecl r.1, r.2)
  | .constDecl defs =>
      let r := foldVarDefList sem defs
      (.constDecl r.1, r.2)

mutual

/-- ConstantFolder::foldStmt (src/ast/constant_folding.h lines 96-163).
Every call of foldAndReplaceExpr on a non-null expression yields a fresh
node, so the pointer-inequality tests of the source set the change flag at
every present expression position.  In the IfStmt branch the source
additionally assigns changed = true when the folded condition is an int
literal (lines 124-127); this is modelled verbatim even though the flag is
already true at that point.  Statements with no matching branch (break,
continue) return false. -/
def foldStmt {F : Type} (sem : FloatSem F) : Stmt F → Stmt F × Bool
  | .assign lv e => (.assign lv (foldAndReplaceExpr sem e), true)
  | .ifS cond thenS elseS =>
      let c := foldAndReplaceExpr sem cond
      let rt := foldStmt sem thenS
      let re :=
        match elseS with
        | none => (none, false)
        | some s =>
            let r := foldStmt sem s
            (some r.1, r.2)
      let changed := true || rt.2 || re.2
      let changed := if c.isConstant then true else changed
      (.ifS c rt.1 re.1, changed)
  | .whileS cond body =>
      let c := foldAndReplaceExpr sem cond
      let rb := foldStmt sem body
      (.whileS c rb.1, true || rb.2)
  | .block items =>
      let r := foldBlockItems sem items
      (.block r.1, r.2)
  | .exprStmt none => (.exprStmt none, false)
  | .exprStmt (some e) => (.exprStmt (some (foldAndReplaceExpr sem e)), true)
  | .ret none => (.ret none, false)
  | .ret (some e) => (.ret (some (foldAndReplaceExpr sem e)), true)
  | .breakS => (.breakS, false)
  | .continueS => (.continueS, false)

/-- ConstantFolder::foldBlock (src/ast/constant_folding.h lines 31-44). -/
def foldBlockItems {F : Type} (sem : FloatSem F) : BlockItems F → BlockItems F × Bool
  | .nil => (.nil, false)
  | .consStmt s t =>
      let rs := foldStmt sem s
      let rt := foldBlockItems sem t
      (.consStmt rs.1 rt.1, rs.2 || rt.2)
  | .consDecl d t =>
      let rd := foldDecl sem d
      let rt := foldBlockItems sem t
      (.consDecl rd.1 rt.1, rd.2 || rt.2)

end

/-- Folds the global declarations of a compilation unit. -/
def foldDeclList {F : Type} (sem : FloatSem F) : List (Decl F) → List (Decl F) × Bool
  | [] => ([], false)
  | d :: t =>
      let rd := foldDecl sem d
      let rt := foldDeclList sem t
      (rd.1 :: rt.1, rd.2 || rt.2)

/-- Folds every function body (ConstantFolder::foldFunction folds the body
block). -/
def foldFunctionList {F : Type} (sem : FloatSem F) : List (Function F) → List (Function F) × Bool
  | [] => ([], false)
  | f :: t =>
      let rb := foldBlockItems sem f.body
      let rt := foldFunctionList sem t
      ({ f with body := rb.1 } :: rt.1, rb.2 || rt.2)

/-- ConstantFolder::fold (src/ast/constant_folding.h lines 8-24): folds the
global declarations, then every function, returning the OR of all change
flags. -/
def foldCompUnit {F : Type} (sem : FloatSem F) (u : CompUnit F) : CompUnit F × Bool :=
  let rd := foldDeclList sem u.decls
  let rf := foldFunctionList sem u.funcs
  (⟨rd.1, rf.1⟩, rd.2 || rf.2)

/-- ASTOptimizer::optimize (src/ast/ast_optimizer.h lines 23-51): the
while loop body increments passCount and re-runs the folder; the loop exits
when a pass reports no change or when 8 passes have run.  Returns the final
AST and the final passCount. -/
def optimizeLoop {F : Type} (sem : FloatSem F) (u : CompUnit F) (passCount : Nat) :
    CompUnit F × Nat :=
  if passCount < 8 then
    let r := foldCompUnit sem u
    if r.2 then optimizeLoop sem r.1 (passCount + 1) else (r.1, passCount + 1)
  else (u, passCount)
termination_by 8 - passCount

/-- Entry point of the optimization driver: passCount starts at 0 and
changed starts true. -/
def optimize {F : Type} (sem : FloatSem F) (u : CompUnit F) : CompUnit F × Nat :=
  optimizeLoop sem u 0

mutual

/-- True when an initializer contains at least one expression position
(the positions at which foldInitVal calls foldAndReplaceExpr). -/
def InitVal.hasExprPosition {F : Type} : InitVal F → Bool
  | .exprInit _ => true
  | .listInit vals => vals.hasExprPosition

/-- List version of InitVal.hasExprPosition. -/
def InitValList.hasExprPosition {F : Type} : InitValList F → Bool
  | .nil => false
  | .cons v t => v.hasExprPosition || t.hasExprPosition

end

/-- True when a definition carries an initializer with an expression
position. -/
def VarDef.hasExprPosition {F : Type} (d : VarDef F) : Bool :=
  match d.initVal with
  | none => false
  | some iv => iv.hasExprPosition

/-- True when a declaration carries an initializer with an expression
position. -/
def Decl.hasExprPosition {F : Type} : Decl F → Bool
  | .varDecl defs => defs.any VarDef.hasExprPosition
  | .constDecl defs => defs.any VarDef.hasExprPosition

mutual

/-- True when a statement contains at least one expression position that
foldStmt hands to foldAndReplaceExpr: the right-hand side of an
assignment, an if or while condition, a present expression-statement
expression, a present return value, or such a position in a nested
statement or declaration. -/
def Stmt.hasExprPosition {F : Type} : Stmt F → Bool
  | .assign _ _ => true
  | .ifS _ _ _ => true
  | .whileS _ _ => true
  | .exprStmt e => e.isSome
  | .ret e => e.isSome
  | .breakS => false
  | .continueS => false
  | .block items => items.hasExprPosition

/-- List version of Stmt.hasExprPosition over block items. -/
def BlockItems.hasExprPosition {F : Type} : BlockItems F → Bool
  | .nil => false
  | .consStmt s t => s.hasExprPosition || t.hasExprPosition
  | .consDecl d t => d.hasExprPosition || t.hasExprPosition

end

/-- True when the compilation unit contains at least one expression
position visited by ConstantFolder::fold. -/
def CompUnit.hasExprPosition {F : Type} (u : CompUnit F) : Bool :=
  u.decls.any Decl.hasExprPosition || u.funcs.any (fun f => f.body.hasExprPosition)

mutual

theorem foldInitVal_flag {F : Type} (sem : FloatSem F) (v : InitVal F) :
    (foldInitVal sem v).2 = v.hasExprPosition := by
  cases v with
  | exprInit e => rfl
  | listInit vals =>
      simp [foldInitVal, InitVal.hasExprPosition, foldInitValList_flag sem vals]

theorem foldInitValList_flag {F : Type} (sem : FloatSem F) (vs : InitValList F) :
    (foldInitValList sem vs).2 = vs.hasExprPosition := by
  cases vs with
  | nil => rfl
  | cons v t =>
      simp [foldInitValList, InitValList.hasExprPosition, foldInitVal_flag sem v,
        foldInitValList_flag sem t]

end

theorem foldVarDef_flag {F : Type} (sem : FloatSem F) (d : VarDef F) :
    (foldVarDef sem d).2 = d.hasExprPosition := by
  cases h : d.initVal with
  | none => simp [foldVarDef, VarDef.hasExprPosition, h]
  | some iv => simp [foldVarDef, VarDef.hasExprPosition, h, foldInitVal_flag]

theorem foldVarDefList_flag {F : Type} (sem : FloatSem F) (ds : List (VarDef F)) :
    (foldVarDefList sem ds).2 = ds.any VarDef.hasExprPosition := by
  induction ds with
  | nil => rfl
  | cons d t ih => simp [foldVarDefList, foldVarDef_flag, ih]

theorem foldDecl_flag {F : Type} (sem : FloatSem F) (d : Decl F) :
    (foldDecl sem d).2 = d.hasExprPosition := by
  cases d with
  | varDecl defs => simp [foldDecl, Decl.hasExprPosition, foldVarDefList_flag]
  | constDecl defs => simp [foldDecl, Decl.hasExprPosition, foldVarDefList_flag]

mutual

theorem foldStmt_flag {F : Type} (sem : FloatSem F) (s : Stmt F) :
    (foldStmt sem s).2 = s.hasExprPosition := by
  cases s with
  | assign lv e => rfl
  | ifS cond thenS elseS => cases elseS <;> simp [foldStmt, Stmt.hasExprPosition]
  | whileS cond body => simp [foldStmt, Stmt.hasExprPosition]
  | exprStmt e => cases e <;> rfl
  | ret e => cases e <;> rfl
  | breakS => rfl
  | continueS => rfl
  | block items => simp [foldStmt, Stmt.hasExprPosition, foldBlockItems_flag sem items]

theorem foldBlockItems_flag {F : Type} (sem : FloatSem F) (items : BlockItems F) :
    (foldBlockItems sem items).2 = items.hasExprPosition := by
  cases items with
  | nil => rfl
  | consStmt s t =>
      simp [foldBlockItems, BlockItems.hasExprPosition, foldStmt_flag sem s,
        foldBlockItems_flag sem t]
  | consDecl d t =>
      simp [foldBlockItems, BlockItems.hasExprPosition, foldDecl_flag,
        foldBlockItems_flag sem t]

end

theorem foldDeclList_flag {F : Type} (sem : FloatSem F) (ds : List (Decl F)) :
    (foldDeclList sem ds).2 = ds.any Decl.hasExprPosition := by
  induction ds with
  | nil => rfl
  | cons d t ih => simp [foldDeclList, foldDecl_flag, ih]

theorem foldFunctionList_flag {F : Type} (sem : FloatSem F) (fs : List (Function F)) :
    (foldFunctionList sem fs).2 = fs.any (fun f => f.body.hasExprPosition) := by
  induction fs with
  | nil => rfl
  | cons f t ih => simp [foldFunctionList, foldBlockItems_flag, ih]

theorem foldAndReplaceExpr_unaryCollapse {F : Type} (sem : FloatSem F) (op : UnOp)
    (X : Expr F) :
    foldAndReplaceExpr sem (unaryCollapse sem op X) =
      unaryCollapse sem op (foldAndReplaceExpr sem X) := by
  cases X <;> rfl

theorem foldAndReplaceExpr_binaryCollapse {F : Type} (sem : FloatSem F) (op : BinOp)
    (L R : Expr F) :
    foldAndReplaceExpr sem (binaryCollapse sem op L R) =
      binaryCollapse sem op (foldAndReplaceExpr sem L) (foldAndReplaceExpr sem R) := by
  cases L <;> cases R <;> rfl

mutual

theorem foldAndReplaceExpr_idem {F : Type} (sem : FloatSem F) (e : Expr F) :
    foldAndReplaceExpr sem (foldAndReplaceExpr sem e) = foldAndReplaceExpr sem e := by
  cases e with
  | intConst v => rfl
  | floatConst v => rfl
  | stringLit s => rfl
  | lval n idxs =>
      simp [foldAndReplaceExpr, foldExprList_idem sem idxs]
  | call c args =>
      simp [foldAndReplaceExpr, foldExprList_idem sem args]
  | unary op x =>
      simp only [foldAndReplaceExpr, foldAndReplaceExpr_unaryCollapse,
        foldAndReplaceExpr_idem sem x]
  | binary op lhs rhs =>
      simp only [foldAndReplaceExpr, foldAndReplaceExpr_binaryCollapse,
        foldAndReplaceExpr_idem sem lhs, foldAndReplaceExpr_idem sem rhs]

theorem foldExprList_idem {F : Type} (sem : FloatSem F) (es : ExprList F) :
    foldExprList sem (foldExprList sem es) = foldExprList sem es := by
  cases es with
  | nil => rfl
  | cons e t =>
      simp [foldExprList, foldAndReplaceExpr_idem sem e, foldExprList_idem sem t]

end

mutual

theorem foldInitVal_idem {F : Type} (sem : FloatSem F) (v : InitVal F) :
    (foldInitVal sem (foldInitVal sem v).1).1 = (foldInitVal sem v).1 := by
  cases v with
  | exprInit e => simp [foldInitVal, foldAndReplaceExpr_idem sem e]
  | listInit vals => simp [foldInitVal, foldInitValList_idem sem vals]

theorem foldInitValList_idem {F : Type} (sem : FloatSem F) (vs : InitValList F) :
    (foldInitValList sem (foldInitValList sem vs).1).1 = (foldInitValList sem vs).1 := by
  cases vs with
  | nil => rfl
  | cons v t =>
      simp [foldInitValList, foldInitVal_idem sem v, foldInitValList_idem sem t]

end

theorem foldVarDef_idem {F : Type} (sem : FloatSem F) (d : VarDef F) :
    (foldVarDef sem (foldVarDef sem d).1).1 = (foldVarDef sem d).1 := by
  cases h : d.initVal with
  | none => simp [foldVarDef, h]
  | some iv => simp [foldVarDef, h, foldInitVal_idem sem iv]

theorem foldVarDefList_idem {F : Type} (sem : FloatSem F) (ds : List (VarDef F)) :
    (foldVarDefList sem (foldVarDefList sem ds).1).1 = (foldVarDefList sem ds).1 := by
  induction ds with
  | nil => rfl
  | cons d t ih => simp [foldVarDefList, foldVarDef_idem sem d, ih]

theorem foldDecl_idem {F : Type} (sem : FloatSem F) (d : Decl F) :
    (foldDecl sem (foldDecl sem d).1).1 = (foldDecl sem d).1 := by
  cases d with
  | varDecl defs => simp [foldDecl, foldVarDefList_idem sem defs]
  | constDecl defs => simp [foldDecl, foldVarDefList_idem sem defs]

mutual

theorem foldStmt_idem {F : Type} (sem : FloatSem F) (s : Stmt F) :
    (foldStmt sem (foldStmt sem s).1).1 = (foldStmt sem s).1 := by
  cases s with
  | assign lv e => simp [foldStmt, foldAndReplaceExpr_idem sem e]
  | ifS cond thenS elseS =>
      cases elseS with
      | none =>
          simp [foldStmt, foldAndReplaceExpr_idem sem cond, foldStmt_idem sem thenS]
      | some s2 =>
          simp [foldStmt, foldAndReplaceExpr_idem sem cond, foldStmt_idem sem thenS,
            foldStmt_idem sem s2]
  | whileS cond body =>
      simp [foldStmt, foldAndReplaceExpr_idem sem cond, foldStmt_idem sem body]
  | exprStmt e =>
      cases e with
      | none => rfl
      | some e2 => simp [foldStmt, foldAndReplaceExpr_idem sem e2]
  | ret e =>
      cases e with
      | none => rfl
      | some e2 => simp [foldStmt, foldAndReplaceExpr_idem sem e2]
  | breakS => rfl
  | continueS => rfl
  | block items => simp [foldStmt, foldBlockItems_idem sem items]

theorem foldBlockItems_idem {F : Type} (sem : FloatSem F) (items : BlockItems F) :
    (foldBlockItems sem (foldBlockItems sem items).1).1 = (foldBlockItems sem items).1 := by
  cases items with
  | nil => rfl
  | consStmt s t =>
      simp [foldBlockItems, foldStmt_idem sem s, foldBlockItems_idem sem t]
  | consDecl d t =>
      simp [foldBlockItems, foldDecl_idem sem d, foldBlockItems_idem sem t]

end

theorem foldDeclList_idem {F : Type} (sem : FloatSem F) (ds : List (Decl F)) :
    (foldDeclList sem (foldDeclList sem ds).1).1 = (foldDeclList sem ds).1 := by
  induction ds with
  | nil => rfl
  | cons d t ih => simp [foldDeclList, foldDecl_idem sem d, ih]

theorem foldFunctionList_idem {F : Type} (sem : FloatSem F) (fs : List (Function F)) :
    (foldFunctionList sem (foldFunctionList sem fs).1).1 = (foldFunctionList sem fs).1 := by
  induction fs with
  | nil => rfl
  | cons f t ih => simp [foldFunctionList, foldBlockItems_idem sem f.body, ih]

theorem foldCompUnit_idem {F : Type} (sem : FloatSem F) (u : CompUnit F) :
    (foldCompUnit sem (foldCompUnit sem u).1).1 = (foldCompUnit sem u).1 := by
  simp [foldCompUnit, foldDeclList_idem sem u.decls, foldFunctionList_idem sem u.funcs]

theorem optimizeLoop_passCount_le {F : Type} (sem : FloatSem F) :
    ∀ (n : Nat) (u : CompUnit F) (pc : Nat), 8 - pc ≤ n → pc ≤ 8 →
      (optimizeLoop sem u pc).2 ≤ 8 := by
  intro n
  induction n with
  | zero =>
      intro u pc h1 h2
      rw [optimizeLoop]
      have hn : ¬ pc < 8 := by omega
      simp [hn]
      omega
  | succ n ih =>
      intro u pc h1 h2
      rw [optimizeLoop]
      by_cases h : pc < 8
      · cases hc : (foldCompUnit sem u).2 with
        | true =>
            simp [h, hc]
            exact ih _ (pc + 1) (by omega) (by omega)
        | false =>
            simp [h, hc]
            omega
      · simp [h]
        omega

/-- Integer semantics as worded by the specification (section 4.1 and
testable property 2): truncating wrap-around addition, subtraction and
multiplication in 32-bit two's complement; division and modulo with a zero
right operand yield 0 (no trap at fold time); comparisons yield 0/1; the
logical operators use C-style non-zero truth.  This definition follows the
wording of the spec and is compared against the source-derived
evaluateBinaryOpInt. -/
def specIntegerSemantics (op : BinOp) (a b : Int) : Int :=
  match op with
  | .ADD => wrap32 (a + b)
  | .SUB => wrap32 (a - b)
  | .MUL => wrap32 (a * b)
  | .DIV => if b = 0 then 0 else wrap32 (Int.tdiv a b)
  | .MOD => if b = 0 then 0 else Int.tmod a b
  | .LT => if a < b then 1 else 0
  | .GT => if b < a then 1 else 0
  | .LE => if a ≤ b then 1 else 0
  | .GE => if b ≤ a then 1 else 0
  | .EQ => if a = b then 1 else 0
  | .NE => if a = b then 0 else 1
  | .AND => if a ≠ 0 ∧ b ≠ 0 then 1 else 0
  | .OR => if a = 0 ∧ b = 0 then 0 else 1

theorem evaluateBinaryOpInt_eq_spec (op : BinOp) (a b : Int) :
    evaluateBinaryOpInt op a b = specIntegerSemantics op a b := by
  cases op <;>
    simp only [evaluateBinaryOpInt, specIntegerSemantics, intTruth, ne_eq, ge_iff_le,
      gt_iff_lt, decide_not] <;>
    (try (by_cases hb : b = 0 <;> simp [hb]))

/-- C1: for every binary operator (ADD, SUB, MUL, DIV, MOD, LT, GT, LE, GE,
EQ, NE, AND, OR) and every pair of 32-bit integer literal operands, constant
folding replaces the binary expression with an integer literal equal to the
operator applied in 32-bit two's-complement arithmetic, where division and
modulo with a zero right operand yield 0, comparisons yield 0 or 1, and
AND/OR use C-style non-zero truth (specIntegerSemantics is the spec-worded
semantics). -/
theorem C1_integer_fold_correct {F : Type} (sem : FloatSem F) (op : BinOp) (a b : Int)
    (_ha : int32Range a) (_hb : int32Range b) :
    foldAndReplaceExpr sem (.binary op (.intConst a) (.intConst b)) =
      .intConst (specIntegerSemantics op a b) := by
  have h : foldAndReplaceExpr sem (Expr.binary op (Expr.intConst a) (Expr.intConst b)) =
      Expr.intConst (evaluateBinaryOpInt op a b) := rfl
  rw [h, evaluateBinaryOpInt_eq_spec]

/-- Witness for C1 at the concrete input 7 DIV 0: both literals are in the
32-bit range and the fold yields the literal 0. -/
theorem C1_integer_fold_correct_witness :
    int32Range 7 ∧ int32Range 0 ∧
      foldAndReplaceExpr demoSem (.binary .DIV (.intConst 7) (.intConst 0)) =
        .intConst 0 := by
  refine ⟨by decide, by decide, ?_⟩
  have h := C1_integer_fold_correct demoSem .DIV 7 0 (by decide) (by decide)
  rw [h]
  norm_num [specIntegerSemantics]

/-- A compilation unit whose AST the folder leaves structurally unchanged:
int main(), whose body is exactly the statement `return 0;`. -/
def unchangedUnit : CompUnit Int :=
  ⟨[], [⟨"main", .consStmt (.ret (some (.intConst 0))) .nil⟩]⟩

/-- C4 counterexample: ConstantFolder::fold returns true on a compilation
unit in which no subtree changes (the folded AST is the input AST), because
foldAndReplaceExpr always allocates a fresh node and the callers detect
change by pointer inequality.  This refutes the claim that fold returns
true only if some subtree changed. -/
theorem C4_fold_flag_counterexample :
    foldCompUnit demoSem unchangedUnit = (unchangedUnit, true) := rfl

/-- C4 amended: ConstantFolder::fold returns true if and only if the
compilation unit contains at least one expression position that the folder
visits (an initializer expression, an assignment right-hand side, an
if/while condition, a present expression-statement expression, or a present
return value), regardless of whether any subtree structurally changed. -/
theorem C4_fold_flag_amended {F : Type} (sem : FloatSem F) (u : CompUnit F) :
    (foldCompUnit sem u).2 = u.hasExprPosition := by
  simp [foldCompUnit, foldDeclList_flag, foldFunctionList_flag, CompUnit.hasExprPosition]

/-- C5 counterexample: a modulo expression whose operands are both float
literals is not left unfolded: the folder rewrites it to the float literal
0.0 (evaluateBinaryOpFloat returns 0.0f for MOD). -/
theorem C5_float_mod_counterexample :
    foldAndReplaceExpr demoSem (.binary .MOD (.floatConst 3) (.floatConst 2)) =
        .floatConst 0 ∧
      foldAndReplaceExpr demoSem (.binary .MOD (.floatConst 3) (.floatConst 2)) ≠
        .binary .MOD (.floatConst 3) (.floatConst 2) := by
  constructor
  · rfl
  · intro h
    have h2 : Expr.floatConst (F := Int) 0 =
        Expr.binary .MOD (.floatConst 3) (.floatConst 2) := h
    exact Expr.noConfusion h2

/-- C5 amended: the constant folder folds a modulo expression whose operands
are both float literals to the float literal 0.0 (the zero of the float
semantics), for every float semantics and every pair of operand values. -/
theorem C5_float_mod_amended {F : Type} (sem : FloatSem F) (a b : F) :
    foldAndReplaceExpr sem (.binary .MOD (.floatConst a) (.floatConst b)) =
      .floatConst sem.zero := rfl

/-- C6: running the constant folder twice on any AST yields the same AST as
running it once, and the optimization driver always terminates (optimize is
a total function) with a final pass count of at most 8. -/
theorem C6_fold_idempotent_driver_bounded {F : Type} (sem : FloatSem F) (u : CompUnit F) :
    (foldCompUnit sem (foldCompUnit sem u).1).1 = (foldCompUnit sem u).1 ∧
      (optimize sem u).2 ≤ 8 :=
  ⟨foldCompUnit_idem sem u,
    optimizeLoop_passCount_le sem 8 u 0 (by omega) (by omega)⟩

/-- A global initializer constant, as far as IRGenerator::evaluateConstExpr
inspects it: either an llvm ConstantInt (carrying its signed value) or any
other constant (float, aggregate, vector). -/
inductive GlobalInit where
  | intInit (v : Int)
  | nonIntInit
deriving DecidableEq, Repr

/-- A symbol binding as inspected by evaluateConstExpr: the stored value
pointer is either an llvm GlobalVariable (with its constant flag and its
initializer) or a local alloca (any value that is not a GlobalVariable). -/
inductive CESym where
  | globalVar (isConst : Bool) (init : GlobalInit)
  | localAlloca
deriving DecidableEq, Repr

/-- The symbol lookup visible to evaluateConstExpr (the composite of the
scope stack: lookupSymbol returns the innermost binding). -/
def CEEnv : Type := String → Option CESym

/-- IRGenerator::evaluateConstExpr (src/codegen/ir_generator.cpp lines
94-192).  Int literals must be non-negative; an lvalue reference succeeds
only when it resolves to a constant GlobalVariable with a non-negative
ConstantInt initializer (index expressions of the lvalue are not examined);
binary +,-,*,/,% recurse with division/modulo-by-zero errors; unary +,-
recurse; every other operator and every other expression kind is an error.
The C++ int arithmetic is modelled as wrapping 32-bit arithmetic. -/
def evaluateConstExpr {F : Type} (env : CEEnv) : Expr F → Except String Int
  | .intConst v =>
      if v < 0 then .error "Array size must be non-negative" else .ok v
  | .lval name _ =>
      match env name with
      | none => .error "Variable not defined"
      | some (.globalVar isConst init) =>
          if !isConst then .error "Array size must be a constant"
          else
            match init with
            | .intInit v =>
                if v < 0 then .error "Array size must be non-negative" else .ok v
            | .nonIntInit => .error "Array size must be an integer constant"
      | some .localAlloca => .error "Array size must be a constant"
  | .binary op l r => do
      let lhs ← evaluateConstExpr env l
      let rhs ← evaluateConstExpr env r
      match op with
      | .ADD => .ok (wrap32 (lhs + rhs))
      | .SUB => .ok (wrap32 (lhs - rhs))
      | .MUL => .ok (wrap32 (lhs * rhs))
      | .DIV =>
          if rhs = 0 then .error "Division by zero in constant expression"
          else .ok (wrap32 (Int.tdiv lhs rhs))
      | .MOD =>
          if rhs = 0 then .error "Modulo by zero in constant expression"
          else .ok (Int.tmod lhs rhs)
      | _ => .error "Unsupported operator in constant expression"
  | .unary op e => do
      let operand ← evaluateConstExpr env e
      match op with
      | .PLUS => .ok operand
      | .MINUS => .ok (wrap32 (-operand))
      | .NOT => .error "Unsupported unary operator in constant expression"
  | .floatConst _ => .error "Array size must be a constant integer expression"
  | .call _ _ => .error "Array size must be a constant integer expression"
  | .stringLit _ => .error "Array size must be a constant integer expression"

/-- The scalar-int path of the ConstDecl branch of IRGenerator::generateDecl
(src/codegen/ir_generator.cpp lines 1339-1409): every constant definition
creates an llvm GlobalVariable with the constant flag set — the branch never
tests currentFunction, so constants declared inside a function body are also
emitted as module-level globals — and binds the name to it in the innermost
scope.  For a scalar int constant with a literal initializer v the global
initializer is ConstantInt v. -/
def processScalarIntConstDecl (_inFunction : Bool) (name : String) (v : Int)
    (env : CEEnv) : CEEnv :=
  fun n => if n = name then some (.globalVar true (.intInit v)) else env n

/-- C7 counterexample: a constant declared inside a function body (a local
name) is accepted by the const evaluator rather than rejected, because the
ConstDecl lowering emits every constant as a module-level GlobalVariable:
after processing `const int n = 4;` inside a function, evaluating the
reference n yields 4, not an error. -/
theorem C7_local_const_counterexample :
    evaluateConstExpr (F := Unit)
        (processScalarIntConstDecl true "n" 4 (fun _ => none)) (.lval "n" .nil) =
      .ok 4 := rfl

/-- C7 amended: when evaluating a compile-time integer expression, the const
evaluator reports an error for division or modulo with a zero right operand,
for any reference to a name bound to a non-constant global, to a name bound
to a local stack cell (every non-const local), and to a name bound to a
constant whose initializer is not an integer constant.  (A reference to a
name bound to a constant succeeds even when the constant was declared
locally, since constant declarations are emitted as module-level globals.) -/
theorem C7_const_evaluator_errors {F : Type} (env : CEEnv) (l r : Expr F)
    (lv : Int) (name : String) (idxs : ExprList F) (c : GlobalInit)
    (hl : evaluateConstExpr env l = .ok lv)
    (hr : evaluateConstExpr env r = .ok 0) :
    (evaluateConstExpr env (.binary .DIV l r) =
        .error "Division by zero in constant expression"
      ∧ evaluateConstExpr env (.binary .MOD l r) =
        .error "Modulo by zero in constant expression")
    ∧ (env name = some (.globalVar false c) →
        evaluateConstExpr env (.lval name idxs) = .error "Array size must be a constant")
    ∧ (env name = some .localAlloca →
        evaluateConstExpr env (.lval name idxs) = .error "Array size must be a constant")
    ∧ (env name = some (.globalVar true .nonIntInit) →
        evaluateConstExpr env (.lval name idxs) =
          .error "Array size must be an integer constant") := by
  refine ⟨⟨?_, ?_⟩, ?_, ?_, ?_⟩
  · simp [evaluateConstExpr, hl, hr, Bind.bind, Except.bind]
  · simp [evaluateConstExpr, hl, hr, Bind.bind, Except.bind]
  · intro h; simp [evaluateConstExpr, h]
  · intro h; simp [evaluateConstExpr, h]
  · intro h; simp [evaluateConstExpr, h]

/-- A closed environment for the C7 witness: x is a local, g is a
non-constant global int, f is a constant float global. -/
def ceWitnessEnv : CEEnv := fun n =>
  if n = "x" then some .localAlloca
  else if n = "g" then some (.globalVar false (.intInit 1))
  else if n = "f" then some (.globalVar true .nonIntInit)
  else none

/-- Witness for C7 at concrete inputs: 6 / 0 and 6 % 0 error, and the
references g (non-const global), x (local) and f (non-integer constant)
error. -/
theorem C7_const_evaluator_errors_witness :
    (evaluateConstExpr ceWitnessEnv
        (.binary .DIV (.intConst (F := Unit) 6) (.intConst 0)) =
      .error "Division by zero in constant expression"
    ∧ evaluateConstExpr ceWitnessEnv
        (.binary .MOD (.intConst (F := Unit) 6) (.intConst 0)) =
      .error "Modulo by zero in constant expression")
    ∧ evaluateConstExpr ceWitnessEnv (.lval (F := Unit) "g" .nil) =
        .error "Array size must be a constant"
    ∧ evaluateConstExpr ceWitnessEnv (.lval (F := Unit) "x" .nil) =
        .error "Array size must be a constant"
    ∧ evaluateConstExpr ceWitnessEnv (.lval (F := Unit) "f" .nil) =
        .error "Array size must be an integer constant" :=
  ⟨(C7_const_evaluator_errors ceWitnessEnv (.intConst 6) (.intConst 0) 6 "g" .nil
      (.intInit 1) rfl rfl).1,
   (C7_const_evaluator_errors ceWitnessEnv (.intConst 6) (.intConst 0) 6 "g" .nil
      (.intInit 1) rfl rfl).2.1 rfl,
   (C7_const_evaluator_errors ceWitnessEnv (.intConst 6) (.intConst 0) 6 "x" .nil
      (.intInit 1) rfl rfl).2.2.1 rfl,
   (C7_const_evaluator_errors ceWitnessEnv (.intConst 6) (.intConst 0) 6 "f" .nil
      (.intInit 1) rfl rfl).2.2.2 rfl⟩

/-- An llvm constant produced for a global initializer: ConstantInt,
ConstantFP, or ConstantArray. -/
inductive LLVMConst (F : Type) where
  | cint (v : Int)
  | cfloat (f : F)
  | carr (elems : List (LLVMConst F))

/-- The scalar element type of a (possibly nested) global array, after the
while-loop of generateInitVal peels every ArrayType layer: i32 or float. -/
inductive ScalarKind where
  | i32
  | f32
deriving DecidableEq, Repr

/-- Constant::getNullValue at a scalar type. -/
def zeroScalar {F : Type} (sem : FloatSem F) : ScalarKind → LLVMConst F
  | .i32 => .cint 0
  | .f32 => .cfloat sem.zero

/-- Conversion of the embedded initializer-list spine to a Lean list. -/
def InitValList.toList {F : Type} : InitValList F → List (InitVal F)
  | .nil => []
  | .cons v t => v :: t.toList

mutual

/-- The recursive lambda buildArrayInit of IRGenerator::generateInitVal
(src/codegen/ir_generator.cpp lines 1698-1763), which constructs the
constant aggregate initializer of a global array.  dims is the remaining
dimension vector, vals the initializer list currently being consumed, and
index the consumption cursor (passed by reference in the source, returned
here).  At a leaf (dims empty): if the cursor is inside the list and the
entry is an expression initializer, its constant is consumed (cursor
advances); a nested list at a leaf position falls through to the zero value
without advancing the cursor; past the end the zero value is produced.
Leaf expressions are modelled for literal constants (after constant folding
every global-initializer leaf is a literal); a non-literal leaf is mapped to
a distinguished error and never arises in the theorems below.  At a
dimension, the loop body (buildArrayInitLoop) runs once per element: a
nested list entry recurses into the sub-list with a fresh cursor and then
advances the outer cursor by one; an expression entry recurses flatly,
sharing the cursor; past the end a recursion over the empty list fills with
zeroes. -/
def buildArrayInit {F : Type} (sem : FloatSem F) (elemKind : ScalarKind)
    (dims : List Nat) (vals : List (InitVal F)) (index : Nat) :
    Except String (LLVMConst F × Nat) :=
  match dims with
  | [] =>
      match vals[index]? with
      | some (.exprInit e) =>
          match e with
          | .intConst v =>
              if elemKind = .i32 then .ok (.cint v, index + 1)
              else .error "Type mismatch in global variable initializer"
          | .floatConst f =>
              if elemKind = .f32 then .ok (.cfloat f, index + 1)
              else .error "Type mismatch in global variable initializer"
          | _ => .error "unmodelled non-literal initializer element"
      | some (.listInit _) => .ok (zeroScalar sem elemKind, index)
      | none => .ok (zeroScalar sem elemKind, index)
  | d :: rest => do
      let r ← buildArrayInitLoop sem elemKind d rest vals index
      .ok (.carr r.1, r.2)
termination_by (dims.length, 1, 0)

/-- The for-loop over the current dimension inside buildArrayInit
(src/codegen/ir_generator.cpp lines 1723-1757); count is the number of
remaining iterations. -/
def buildArrayInitLoop {F : Type} (sem : FloatSem F) (elemKind : ScalarKind)
    (count : Nat) (rest : List Nat) (vals : List (InitVal F)) (index : Nat) :
    Except String (List (LLVMConst F) × Nat) :=
  match count with
  | 0 => .ok ([], index)
  | n + 1 =>
      match vals[index]? with
      | some (.listInit sub) => do
          let r ← buildArrayInit sem elemKind rest sub.toList 0
          let rr ← buildArrayInitLoop sem elemKind n rest vals (index + 1)
          .ok (r.1 :: rr.1, rr.2)
      | some (.exprInit _) => do
          let r ← buildArrayInit sem elemKind rest vals index
          let rr ← buildArrayInitLoop sem elemKind n rest vals r.2
          .ok (r.1 :: rr.1, rr.2)
      | none => do
          let r ← buildArrayInit sem elemKind rest [] 0
          let rr ← buildArrayInitLoop sem elemKind n rest vals index
          .ok (r.1 :: rr.1, rr.2)
termination_by (rest.length + 1, 0, count)

end

mutual

/-- Row-major flattening of a constant aggregate into its scalar leaves. -/
def flattenConst {F : Type} : LLVMConst F → List (LLVMConst F)
  | .cint v => [.cint v]
  | .cfloat f => [.cfloat f]
  | .carr elems => flattenConstList elems

/-- Flattening of a list of constant aggregates. -/
def flattenConstList {F : Type} : List (LLVMConst F) → List (LLVMConst F)
  | [] => []
  | c :: t => flattenConst c ++ flattenConstList t

end

/-- A flat initializer list of integer literals (the AST of an initializer
such as brace-list 1, 2, 3). -/
def flatIntInits {F : Type} (nums : List Int) : List (InitVal F) :=
  nums.map (fun v => .exprInit (.intConst v))

/-- The run of count values that flat consumption reads starting at cursor
idx: list entries while they last, zero afterwards. -/
def windowInts (nums : List Int) (idx count : Nat) : List Int :=
  (List.range count).map (fun j => nums.getD (idx + j) 0)

theorem windowInts_append (nums : List Int) (idx a b : Nat) :
    windowInts nums idx (a + b) = windowInts nums idx a ++ windowInts nums (idx + a) b := by
  unfold windowInts
  rw [List.range_add, List.map_append, List.map_map]
  congr 1
  apply List.map_congr_left
  intro j hj
  show nums.getD (idx + (a + j)) 0 = nums.getD (idx + a + j) 0
  congr 1
  omega

theorem windowInts_of_ge (nums : List Int) (idx c : Nat) (h : nums.length ≤ idx) :
    windowInts nums idx c = List.replicate c 0 := by
  refine List.eq_replicate_iff.mpr ⟨by simp [windowInts], ?_⟩
  intro b hb
  unfold windowInts at hb
  rcases List.mem_map.mp hb with ⟨j, _, hj⟩
  rw [List.getD_eq_default] at hj
  · omega
  · omega

theorem windowInts_length (nums : List Int) (idx c : Nat) :
    (windowInts nums idx c).length = c := by
  simp [windowInts]

theorem windowInts_prefix (nums : List Int) :
    windowInts nums 0 nums.length = nums := by
  apply List.ext_getElem
  · simp [windowInts]
  · intro i h1 h2
    simp only [windowInts, List.getElem_map, List.getElem_range, Nat.zero_add]
    exact List.getD_eq_getElem nums 0 h2

theorem windowInts_min_start (nums : List Int) (s c : Nat) :
    windowInts nums (min s nums.length) c = windowInts nums s c := by
  rcases Nat.le_total s nums.length with h | h
  · rw [Nat.min_eq_left h]
  · rw [Nat.min_eq_right h, windowInts_of_ge _ _ _ (le_refl _), windowInts_of_ge _ _ _ h]

mutual

theorem buildArrayInit_flat_spec {F : Type} (sem : FloatSem F) (nums : List Int)
    (dims : List Nat) (idx : Nat) (h : idx ≤ nums.length) :
    ∃ C, buildArrayInit sem .i32 dims (flatIntInits nums) idx =
        .ok (C, min (idx + dims.prod) nums.length) ∧
      flattenConst C = (windowInts nums idx dims.prod).map LLVMConst.cint := by
  match dims with
  | [] =>
      refine ⟨.cint (nums.getD idx 0), ?_, ?_⟩
      · rcases Nat.lt_or_ge idx nums.length with hlt | hge
        · have hidx : (flatIntInits (F := F) nums)[idx]? =
              some (.exprInit (.intConst (nums.getD idx 0))) := by
            unfold flatIntInits
            rw [List.getElem?_map, List.getElem?_eq_getElem hlt,
              List.getD_eq_getElem _ _ hlt]
            rfl
          simp only [buildArrayInit, hidx, List.prod_nil]
          simp only [reduceIte]
          congr 1
          rw [Prod.mk.injEq]
          exact ⟨rfl, by omega⟩
        · have hidx : (flatIntInits (F := F) nums)[idx]? = none := by
            unfold flatIntInits
            rw [List.getElem?_map, List.getElem?_eq_none (by omega)]
            rfl
          have hd : nums.getD idx 0 = 0 := List.getD_eq_default _ _ (by omega)
          simp only [buildArrayInit, hidx, List.prod_nil, zeroScalar, hd]
          congr 1
          rw [Prod.mk.injEq]
          exact ⟨rfl, by omega⟩
      · show [LLVMConst.cint (F := F) (nums.getD idx 0)] = _
        have hr : List.range 1 = [0] := rfl
        simp [flattenConst, windowInts, hr, List.getD]
  | d :: rest =>
      obtain ⟨Cs, hloop, hflat⟩ := buildArrayInitLoop_flat_spec sem nums d rest idx h
      refine ⟨.carr Cs, ?_, ?_⟩
      · simp only [buildArrayInit, hloop, Bind.bind, Except.bind, List.prod_cons]
      · simpa [flattenConst] using hflat
termination_by (dims.length, 1, 0)

theorem buildArrayInitLoop_flat_spec {F : Type} (sem : FloatSem F) (nums : List Int)
    (count : Nat) (rest : List Nat) (idx : Nat) (h : idx ≤ nums.length) :
    ∃ Cs, buildArrayInitLoop sem .i32 count rest (flatIntInits nums) idx =
        .ok (Cs, min (idx + count * rest.prod) nums.length) ∧
      flattenConstList Cs = (windowInts nums idx (count * rest.prod)).map LLVMConst.cint := by
  match count with
  | 0 =>
      refine ⟨[], ?_, by simp [windowInts, flattenConstList]⟩
      simp only [buildArrayInitLoop, Nat.zero_mul]
      congr 1
      rw [Prod.mk.injEq]
      exact ⟨rfl, by omega⟩
  | n + 1 =>
      have hmul : (n + 1) * rest.prod = rest.prod + n * rest.prod := by ring
      rcases Nat.lt_or_ge idx nums.length with hlt | hge
      · have hidx : (flatIntInits (F := F) nums)[idx]? =
            some (.exprInit (.intConst (nums.getD idx 0))) := by
          unfold flatIntInits
          rw [List.getElem?_map, List.getElem?_eq_getElem hlt,
            List.getD_eq_getElem _ _ hlt]
          rfl
        obtain ⟨C, hC, hCf⟩ := buildArrayInit_flat_spec sem nums rest idx h
        obtain ⟨Cs, hCs, hCsf⟩ :=
          buildArrayInitLoop_flat_spec sem nums n rest (min (idx + rest.prod) nums.length)
            (by omega)
        refine ⟨C :: Cs, ?_, ?_⟩
        · simp only [buildArrayInitLoop, hidx, hC, hCs, Bind.bind, Except.bind]
          congr 1
          rw [Prod.mk.injEq]
          exact ⟨rfl, by omega⟩
        · rw [windowInts_min_start] at hCsf
          simp only [flattenConstList, hCf, hCsf, hmul, windowInts_append,
            List.map_append]
      · have hidx : (flatIntInits (F := F) nums)[idx]? = none := by
          unfold flatIntInits
          rw [List.getElem?_map, List.getElem?_eq_none (by omega)]
          rfl
        obtain ⟨C, hC, hCf⟩ := buildArrayInit_flat_spec sem [] rest 0 (by simp)
        obtain ⟨Cs, hCs, hCsf⟩ := buildArrayInitLoop_flat_spec sem nums n rest idx h
        have hC2 : buildArrayInit sem .i32 rest ([] : List (InitVal F)) 0 =
            .ok (C, min (0 + rest.prod) 0) := by simpa [flatIntInits] using hC
        refine ⟨C :: Cs, ?_, ?_⟩
        · simp only [buildArrayInitLoop, hidx, hC2, hCs, Bind.bind, Except.bind]
          congr 1
          rw [Prod.mk.injEq]
          exact ⟨rfl, by omega⟩
        · have hCf2 : flattenConst C = List.replicate rest.prod (LLVMConst.cint 0) := by
            rw [hCf, windowInts_of_ge _ _ _ (by simp), List.map_replicate]
          have hCsf2 : flattenConstList Cs =
              List.replicate (n * rest.prod) (LLVMConst.cint 0) := by
            rw [hCsf, windowInts_of_ge _ _ _ hge, List.map_replicate]
          rw [flattenConstList, hCf2, hCsf2, windowInts_of_ge _ _ _ hge,
            List.map_replicate, hmul, List.replicate_add]
termination_by (rest.length + 1, 0, count)

end

/-- C2: for a global array declaration with a flat initializer list of
integer literals no longer than the array's total element count, the
supplied values are consumed flatly in row-major order and all remaining
positions are zero-filled: the row-major flattening of the constant
aggregate built by buildArrayInit is the literal list followed by zeroes,
and the final cursor shows every value was consumed. -/
theorem C2_flat_global_array_init {F : Type} (sem : FloatSem F) (dims : List Nat)
    (nums : List Int) (h : nums.length ≤ dims.prod) :
    ∃ C, buildArrayInit sem .i32 dims (flatIntInits nums) 0 = .ok (C, nums.length) ∧
      flattenConst C = nums.map LLVMConst.cint ++
        List.replicate (dims.prod - nums.length) (LLVMConst.cint 0) := by
  obtain ⟨C, hC, hCf⟩ := buildArrayInit_flat_spec sem nums dims 0 (Nat.zero_le _)
  refine ⟨C, ?_, ?_⟩
  · rw [hC]
    congr 1
    rw [Prod.mk.injEq]
    exact ⟨rfl, by omega⟩
  · have h2 : windowInts nums 0 dims.prod =
        nums ++ List.replicate (dims.prod - nums.length) 0 := by
      conv_lhs => rw [show dims.prod = nums.length + (dims.prod - nums.length) by omega]
      rw [windowInts_append, Nat.zero_add, windowInts_prefix,
        windowInts_of_ge _ _ _ (le_refl _)]
    rw [hCf, h2, List.map_append, List.map_replicate]

/-- Witness for C2 at `int a[3][2] = brace-list 1, 2, 3`: three values
against six slots; the flattened aggregate is 1, 2, 3, 0, 0, 0 in row-major
order, so a[0][0]=1, a[0][1]=2, a[1][0]=3 and the rest are zero. -/
theorem C2_flat_global_array_init_witness :
    ([1, 2, 3] : List Int).length ≤ ([3, 2] : List Nat).prod ∧
    (∃ C, buildArrayInit demoSem .i32 [3, 2] (flatIntInits [1, 2, 3]) 0 = .ok (C, 3) ∧
      flattenConst C = [LLVMConst.cint 1, .cint 2, .cint 3, .cint 0, .cint 0, .cint 0]) :=
  ⟨by decide, by
    have h := C2_flat_global_array_init demoSem [3, 2] [1, 2, 3] (by decide)
    simpa [List.replicate] using h⟩

/-- LLVM IR types as used by the modelled lowering fragments. -/
inductive IRType where
  | i1
  | i32
  | float
  | double
  | ptr (pointee : IRType)
  | arr (n : Nat) (elem : IRType)
  | vec (n : Nat) (elem : IRType)
deriving DecidableEq, Repr

/-- Type::isIntegerTy. -/
def IRType.isIntegerTy : IRType → Bool
  | .i1 => true
  | .i32 => true
  | _ => false

/-- Type::isFloatTy (exactly the 32-bit float type). -/
def IRType.isFloatTy : IRType → Bool
  | .float => true
  | _ => false

/-- Type::isVectorTy. -/
def IRType.isVectorTy : IRType → Bool
  | .vec _ _ => true
  | _ => false

/-- Which conversion instruction a lowering emitted. -/
inductive ConvKind where
  | fptosi
  | sitofp
deriving DecidableEq, Repr

/-- The action performed by the scalar-expression branch of generateInitVal. -/
inductive ScalarInitAction where
  | setInitializer
  | storeDirect
  | storeConverted (conv : ConvKind)
deriving DecidableEq, Repr

/-- The scalar-expression branch of IRGenerator::generateInitVal
(src/codegen/ir_generator.cpp lines 1529-1580), for a scalar (non-vector)
target: when the value type equals the variable type, a global gets its
initializer set and a local gets a store.  On a type mismatch a global is
rejected outright (lines 1556-1560, before any conversion is attempted);
a local converts float-to-int with FPToSI or int-to-float with SIToFP and
stores the converted value; any other mismatch is an error.  (For a global
the value must additionally be an llvm Constant; the claims below concern
literal initializers, which always are.) -/
def generateScalarExprInit (isGlobal : Bool) (varType valueType : IRType) :
    Except String ScalarInitAction :=
  if valueType = varType then
    if isGlobal then .ok .setInitializer else .ok .storeDirect
  else
    if isGlobal then .error "Type mismatch in global variable initializer"
    else if varType.isIntegerTy && valueType.isFloatTy then .ok (.storeConverted .fptosi)
    else if varType.isFloatTy && valueType.isIntegerTy then .ok (.storeConverted .sitofp)
    else .error "Type mismatch in variable initializer"

/-- C9: a global scalar whose initializer value type differs from the
declared type is rejected with a type-mismatch error before any conversion
is attempted, whereas a local scalar with an int/float mismatch gets the
value converted (SIToFP for an int value into a float variable, FPToSI for
a float value into an int variable) and stored. -/
theorem C9_scalar_init_mismatch (varType valueType : IRType)
    (hne : valueType ≠ varType) :
    generateScalarExprInit true varType valueType =
        .error "Type mismatch in global variable initializer"
    ∧ generateScalarExprInit false .float .i32 = .ok (.storeConverted .sitofp)
    ∧ generateScalarExprInit false .i32 .float = .ok (.storeConverted .fptosi) := by
  refine ⟨?_, rfl, rfl⟩
  simp [generateScalarExprInit, hne]

/-- Witness for C9 at the mismatch of the claim: an i32 value initializing
a float global errors; the same mismatch on a local converts and stores. -/
theorem C9_scalar_init_mismatch_witness :
    (IRType.i32 ≠ IRType.float) ∧
    generateScalarExprInit true .float .i32 =
        .error "Type mismatch in global variable initializer" ∧
    generateScalarExprInit false .float .i32 = .ok (.storeConverted .sitofp) :=
  ⟨by decide, (C9_scalar_init_mismatch .float .i32 (by decide)).1,
    (C9_scalar_init_mismatch .float .i32 (by decide)).2.1⟩

/-- Type::isFloatingPointTy. -/
def IRType.isFloatingPointTy : IRType → Bool
  | .float => true
  | .double => true
  | _ => false

/-- ConstantInt::get(Type, value): llvm casts the type to IntegerType, which
asserts that it is one; modelled as an error for any non-integer type. -/
def constantIntGet (t : IRType) : Except String Unit :=
  if t.isIntegerTy then .ok () else .error "ConstantInt::get requires an integer type"

/-- CreateICmpNE of a value against the integer zero of its own type, as the
if/while lowering emits it: valid (yielding i1) only for integer operand
types. -/
def createICmpNEZero (t : IRType) : Except String IRType := do
  let _ ← constantIntGet t
  if t.isIntegerTy then .ok .i1 else .error "ICmp requires integer operands"

/-- CreateAdd/CreateFAdd-family typing: operands must have identical types;
the float forms require a floating-point type and the integer forms an
integer type (llvm instruction invariants). -/
def createArith (isFloatOp : Bool) (lt rt : IRType) : Except String IRType :=
  if lt ≠ rt then .error "binary operator requires matching operand types"
  else if isFloatOp then
    if lt.isFloatingPointTy then .ok lt
    else .error "float operator requires floating-point operands"
  else
    if lt.isIntegerTy then .ok lt
    else .error "integer operator requires integer operands"

/-- CreateICmp/CreateFCmp typing: like createArith but yielding i1. -/
def createCmp (isFloatOp : Bool) (lt rt : IRType) : Except String IRType := do
  let _ ← createArith isFloatOp lt rt
  .ok .i1

/-- CreateAnd/CreateOr typing: bitwise operations require matching integer
types. -/
def createBitAnd (lt rt : IRType) : Except String IRType :=
  if lt = rt && lt.isIntegerTy then .ok lt
  else .error "bitwise operator requires matching integer operands"

/-- Result-type semantics of IRGenerator::generateCondExpr
(src/codegen/ir_generator.cpp lines 562-744), the condition-context
expression lowering: int literals are i32 constants, float literals are
float constants, lvalue and call results take the type the corresponding
lowering produces (abstracted by the two environments; vector-typed results
are rejected, lines 589-601).  For a binary operation the operation is a
float operation iff not both operand types are integers (line 619), integer
operands are then converted to float (lines 622-629); MOD in the float case
produces the constant 0.0 without an instruction (lines 658-661);
comparisons yield i1; AND/OR lower to bitwise CreateAnd/CreateOr on the
(possibly converted) operands (lines 705-708).  Unary NOT compares with an
integer zero of the operand type (lines 733-737).  String literals reach the
final throw. -/
def genCondExprTy {F : Type} (lvalTy callTy : String → Option IRType) :
    Expr F → Except String IRType
  | .intConst _ => .ok .i32
  | .floatConst _ => .ok .float
  | .lval name _ =>
      match lvalTy name with
      | none => .error "Variable not defined"
      | some t =>
          if t.isVectorTy then .error "Vector value cannot be used as a condition"
          else .ok t
  | .call callee _ =>
      match callTy callee with
      | none => .error "Unknown function referenced"
      | some t =>
          if t.isVectorTy then .error "Vector value cannot be used as a condition"
          else .ok t
  | .binary op l r => do
      let lt ← genCondExprTy lvalTy callTy l
      let rt ← genCondExprTy lvalTy callTy r
      if lt.isVectorTy || rt.isVectorTy then
        .error "Vector value cannot be used in conditional expressions"
      else
        let isFloat := !(lt.isIntegerTy && rt.isIntegerTy)
        let lt2 := if isFloat && lt.isIntegerTy then .float else lt
        let rt2 := if isFloat && rt.isIntegerTy then .float else rt
        match op with
        | .ADD | .SUB | .MUL | .DIV => createArith isFloat lt2 rt2
        | .MOD => if isFloat then .ok .float else createArith false lt2 rt2
        | .LT | .GT | .LE | .GE | .EQ | .NE => createCmp isFloat lt2 rt2
        | .AND | .OR => createBitAnd lt2 rt2
  | .unary op x => do
      let t ← genCondExprTy lvalTy callTy x
      match op with
      | .PLUS => .ok t
      | .MINUS =>
          if t.isFloatingPointTy then .ok t
          else if t.isIntegerTy then .ok t
          else .error "neg requires a numeric operand"
      | .NOT => do
          let _ ← constantIntGet t
          if t.isIntegerTy then .ok .i1 else .error "ICmp requires integer operands"
  | .stringLit _ => .error "Unsupported expression type"

/-- The condition coercion of the IfStmt branch of IRGenerator::generateStmt
(src/codegen/ir_generator.cpp lines 794-803): the condition is lowered with
generateCondExpr and then coerced to a boolean with CreateICmpNE against
ConstantInt::get of the condition value's own type, before the conditional
branch is created.  The WhileStmt branch (lines 946-956) performs the
identical coercion. -/
def lowerCondToBranchBool {F : Type} (lvalTy callTy : String → Option IRType)
    (cond : Expr F) : Except String IRType := do
  let condTy ← genCondExprTy lvalTy callTy cond
  createICmpNEZero condTy

/-- C3: in if/while lowering, an integer-typed condition value (an i32
value, or an i1 comparison result) is coerced to i1 via an integer
compare-not-equal-zero before the conditional branch; but a float-typed
value in condition position is not coerced via any compare-not-equal-zero:
the code hands the float type to ConstantInt::get and CreateICmpNE, which
violate the llvm integer-type requirements, so lowering the condition of
`if (1.5)` or of `float x; if (x)` fails instead of emitting a float
compare against zero. -/
theorem C3_condition_coercion_float_fails :
    lowerCondToBranchBool (fun _ => none) (fun _ => none) (.intConst (F := Unit) 5) =
        .ok .i1
    ∧ lowerCondToBranchBool (fun n => if n = "b" then some .i1 else none) (fun _ => none)
        (.lval (F := Unit) "b" .nil) = .ok .i1
    ∧ lowerCondToBranchBool (fun _ => none) (fun _ => none)
        (.binary .LT (.floatConst (F := Unit) ()) (.intConst 2)) = .ok .i1
    ∧ lowerCondToBranchBool (fun _ => none) (fun _ => none)
        (.floatConst (F := Unit) ()) =
        .error "ConstantInt::get requires an integer type"
    ∧ lowerCondToBranchBool (fun n => if n = "x" then some .float else none) (fun _ => none)
        (.lval (F := Unit) "x" .nil) =
        .error "ConstantInt::get requires an integer type" :=
  ⟨rfl, rfl, rfl, rfl, rfl⟩

/-- Run-time values of the small execution model for vector-element address
lowering: integer scalars, integer vectors of ints, or the undefined content
of a fresh alloca.  (Float-element vectors behave identically for the
frame-effect claim.) -/
inductive MVal where
  | undef
  | intV (v : Int)
  | vecV (elems : List Int)
deriving DecidableEq, Repr

/-- Machine state: stack-cell contents and SSA register contents. -/
structure VMState where
  mem : Nat → MVal
  regs : Nat → MVal

/-- The instructions emitted by the vector-element address lowering. -/
inductive VInstr where
  | loadCell (dst : Nat) (src : Nat)
  | extractElem (dst : Nat) (vecReg : Nat) (idx : Nat)
  | allocaCell (cell : Nat)
  | storeReg (src : Nat) (dstCell : Nat)
deriving DecidableEq, Repr

/-- One step of the execution model. -/
def execVInstr (s : VMState) : VInstr → VMState
  | .loadCell d c =>
      { s with regs := fun r => if r = d then s.mem c else s.regs r }
  | .extractElem d v i =>
      { s with regs := fun r => if r = d then
          (match s.regs v with
           | .vecV es => .intV (es.getD i 0)
           | _ => .undef)
        else s.regs r }
  | .allocaCell c =>
      { s with mem := fun m => if m = c then .undef else s.mem m }
  | .storeReg src c =>
      { s with mem := fun m => if m = c then s.regs src else s.mem m }

/-- Sequential execution. -/
def execVProg (s : VMState) : List VInstr → VMState
  | [] => s
  | i :: t => execVProg (execVInstr s i) t

/-- The vector-element branch of IRGenerator::generateLValAddress
(src/codegen/ir_generator.cpp lines 2329-2347): load the whole vector from
the variable cell, extract the indexed element, allocate a fresh stack
temporary, store the element into it; the temporary's address is the
returned pointer.  vcell is the vector variable's cell, tmpcell the fresh
alloca (CreateAlloca yields a cell distinct from every live cell), r1 and
r2 the SSA ids of the load and the extract. -/
def vecElemAddrProgram (vcell tmpcell r1 r2 idx : Nat) : List VInstr :=
  [.loadCell r1 vcell, .extractElem r2 r1 idx, .allocaCell tmpcell, .storeReg r2 tmpcell]

/-- C10: lowering a vector-element lvalue in address mode yields a pointer
to a freshly allocated temporary holding a copy of the element; a
subsequent store of any register through that pointer changes only the
temporary, and the vector variable's storage still holds the original
vector. -/
theorem C10_vector_element_address_temp (s : VMState)
    (vcell tmpcell r1 r2 idx rx : Nat) (es : List Int)
    (hv : s.mem vcell = .vecV es) (hfresh : tmpcell ≠ vcell)
    (_hidx : idx < es.length) :
    ((execVProg s (vecElemAddrProgram vcell tmpcell r1 r2 idx)).mem tmpcell =
        .intV (es.getD idx 0))
    ∧ ((execVProg s (vecElemAddrProgram vcell tmpcell r1 r2 idx)).mem vcell = .vecV es)
    ∧ ((execVInstr (execVProg s (vecElemAddrProgram vcell tmpcell r1 r2 idx))
          (.storeReg rx tmpcell)).mem vcell = .vecV es)
    ∧ ((execVInstr (execVProg s (vecElemAddrProgram vcell tmpcell r1 r2 idx))
          (.storeReg rx tmpcell)).mem tmpcell =
        (execVProg s (vecElemAddrProgram vcell tmpcell r1 r2 idx)).regs rx) := by
  have hne : vcell ≠ tmpcell := fun h => hfresh h.symm
  refine ⟨?_, ?_, ?_, ?_⟩ <;>
    simp [vecElemAddrProgram, execVProg, execVInstr, hv, hne, hfresh]

/-- A concrete machine state for the C10 witness: cell 0 holds the vector
with elements 10, 20, 30. -/
def c10State : VMState :=
  ⟨fun c => if c = 0 then .vecV [10, 20, 30] else .undef, fun _ => .undef⟩

/-- Witness for C10 at a concrete input: vector cell 0, fresh temporary
cell 1, index 1; the temporary receives 20, the vector cell keeps its
vector before and after a store through the returned pointer. -/
theorem C10_vector_element_address_temp_witness :
    c10State.mem 0 = .vecV [10, 20, 30] ∧ (1 : Nat) ≠ 0 ∧ 1 < 3 ∧
    ((execVProg c10State (vecElemAddrProgram 0 1 0 1 1)).mem 1 = .intV 20
    ∧ (execVProg c10State (vecElemAddrProgram 0 1 0 1 1)).mem 0 = .vecV [10, 20, 30]
    ∧ (execVInstr (execVProg c10State (vecElemAddrProgram 0 1 0 1 1))
        (.storeReg 5 1)).mem 0 = .vecV [10, 20, 30]
    ∧ (execVInstr (execVProg c10State (vecElemAddrProgram 0 1 0 1 1))
        (.storeReg 5 1)).mem 1 =
        (execVProg c10State (vecElemAddrProgram 0 1 0 1 1)).regs 5) :=
  ⟨rfl, by decide, by decide, by
    have h := C10_vector_element_address_temp c10State 0 1 0 1 1 5 [10, 20, 30]
      rfl (by decide) (by decide)
    simpa using h⟩

/-- A pointer operand in the emitted IR: the address of an alloca stack
cell, a module-level global, or the SSA result of an earlier instruction
(a GEP, bitcast, or the preloaded array-parameter pointer). -/
inductive PtrVal where
  | cell (id : Nat)
  | globalRef (name : String)
  | ssa (id : Nat)
deriving DecidableEq, Repr

/-- The result of lowering an expression: an llvm constant, an SSA value,
or a pointer passed by value (a decayed array address used as a call
argument). -/
inductive RVal where
  | constI (v : Int)
  | ssaV (id : Nat)
  | ptrV (p : PtrVal)
deriving DecidableEq, Repr

/-- The instructions emitted by the modelled fragment of the IR generator. -/
inductive GInstr where
  | allocaI (cellId : Nat)
  | storeArg (argIdx : Nat) (dst : PtrVal)
  | loadI (result : Nat) (src : PtrVal)
  | gepI (result : Nat) (base : PtrVal) (idxs : List RVal) (leadingZero : Bool)
  | bitcastI (result : Nat) (src : PtrVal)
  | storeI (src : RVal) (dst : PtrVal)
  | binopI (result : Nat) (lhs rhs : RVal)
  | cmpZeroI (result : Nat) (v : RVal)
  | brI (target : String)
  | condbrI (c : Nat) (bThen bElse : String)
  | retI (v : Option RVal)
  | callI (result : Nat) (callee : String) (args : List RVal)
deriving DecidableEq, Repr

/-- True for block terminators. -/
def GInstr.isTerminator : GInstr → Bool
  | .brI _ => true
  | .condbrI _ _ _ => true
  | .retI _ => true
  | _ => false

/-- A symbol binding (SymbolInfo in src/codegen/ir_generator.h): the stored
value pointer, the constant flag, the array flag, whether the binding is an
array parameter (its cell holds a decayed pointer), and the entry-block
preloaded pointer (loadedArrayPtr). -/
structure GBinding where
  ptr : PtrVal
  isConst : Bool
  isArray : Bool
  isArrayParam : Bool
  cached : Option Nat
deriving DecidableEq, Repr

/-- The composite symbol lookup (lookupSymbol over the scope stack). -/
def GEnv : Type := String → Option GBinding

/-- Updating the environment with a new innermost binding. -/
def GEnv.insert (env : GEnv) (name : String) (b : GBinding) : GEnv :=
  fun n => if n = name then some b else env n

/-- Emission state: fresh-cell, fresh-SSA and fresh-label counters, the
current basic block, whether the current block already has a terminator,
and the code emitted so far in emission order, tagged with its block. -/
structure GState where
  nextCell : Nat
  nextSSA : Nat
  nextLabel : Nat
  curBlock : String
  terminated : Bool
  code : List (String × GInstr)
deriving Repr

/-- Append an instruction to the current block. -/
def emitIR (st : GState) (i : GInstr) : GState :=
  { st with code := st.code ++ [(st.curBlock, i)],
            terminated := st.terminated || i.isTerminator }

/-- Allocate a fresh SSA id. -/
def freshSSA (st : GState) : Nat × GState :=
  (st.nextSSA, { st with nextSSA := st.nextSSA + 1 })

/-- Allocate a fresh stack cell (CreateAlloca). -/
def freshCell (st : GState) : Nat × GState :=
  (st.nextCell, { st with nextCell := st.nextCell + 1 })

/-- Create a fresh block label from a base name. -/
def freshLabel (st : GState) (base : String) : String × GState :=
  (base ++ toString st.nextLabel, { st with nextLabel := st.nextLabel + 1 })

/-- Move the insertion point to a (new, empty) block. -/
def setBlockIR (st : GState) (b : String) : GState :=
  { st with curBlock := b, terminated := false }

mutual

/-- Body expressions of the modelled fragment: integer literals, lvalues,
arithmetic, calls. -/
inductive MExpr where
  | intLit (v : Int)
  | lvalE (name : String) (idxs : MExprList)
  | binE (lhs rhs : MExpr)
  | callE (callee : String) (args : MExprList)

/-- Expression lists (indices, call arguments). -/
inductive MExprList where
  | nil
  | cons (head : MExpr) (tail : MExprList)

end

mutual

/-- Body statements of the modelled fragment. -/
inductive MStmt where
  | assignS (name : String) (idxs : MExprList) (rhs : MExpr)
  | exprS (e : MExpr)
  | retS (e : Option MExpr)
  | ifS (cond : MExpr) (thenS : MStmt) (elseS : Option MStmt)
  | whileS (cond : MExpr) (body : MStmt)
  | breakS
  | continueS
  | blockS (items : MItems)

/-- Block items: statements and (initializer-free) local declarations of
scalars and arrays.  Local initializers emit GEPs and stores but never
loads of parameter cells, so their omission does not weaken the preload
claim. -/
inductive MItems where
  | nil
  | consStmt (s : MStmt) (tail : MItems)
  | consDeclScalar (name : String) (tail : MItems)
  | consDeclArray (name : String) (tail : MItems)

end

mutual

/-- IRGenerator::generateLVal (src/codegen/ir_generator.cpp lines
1851-2027) restricted to the modelled fragment (no vectors).  For an array
parameter the preloaded pointer cached in the binding is the base: a bare
reference returns it with no emission, an indexed reference emits a GEP on
it (no leading zero) and a load of the element; the parameter's stack cell
is never re-loaded.  For a true array, an indexed reference emits a GEP on
the cell with a leading zero index and a load; a bare reference emits a
bitcast of the cell (array-to-pointer decay).  A scalar reference loads its
cell; indexing a scalar is an error. -/
def generateLValIR (env : GEnv) (name : String) (idxs : MExprList)
    (sigOf : String → List Bool) (st : GState) : Except String (RVal × GState) :=
  match env name with
  | none => .error "Variable not defined"
  | some b =>
    if b.isArrayParam then
      match b.cached with
      | none => .error "Array parameter pointer not preloaded"
      | some cp =>
        match idxs with
        | .nil => .ok (.ssaV cp, st)
        | .cons e0 t0 => do
            let (ivs, st1) ← generateExprListIR env sigOf (.cons e0 t0) st
            let (r, st2) := freshSSA st1
            let st3 := emitIR st2 (.gepI r (.ssa cp) ivs false)
            let (r2, st4) := freshSSA st3
            let st5 := emitIR st4 (.loadI r2 (.ssa r))
            .ok (.ssaV r2, st5)
    else if b.isArray then
      match idxs with
      | .nil =>
          let (r, st1) := freshSSA st
          .ok (.ssaV r, emitIR st1 (.bitcastI r b.ptr))
      | .cons e0 t0 => do
          let (ivs, st1) ← generateExprListIR env sigOf (.cons e0 t0) st
          let (r, st2) := freshSSA st1
          let st3 := emitIR st2 (.gepI r b.ptr ivs true)
          let (r2, st4) := freshSSA st3
          let st5 := emitIR st4 (.loadI r2 (.ssa r))
          .ok (.ssaV r2, st5)
    else
      match idxs with
      | .nil =>
          let (r, st1) := freshSSA st
          .ok (.ssaV r, emitIR st1 (.loadI r b.ptr))
      | .cons _ _ => .error "Array index count exceeds array dimensions"
termination_by (sizeOf idxs, 1)

/-- IRGenerator::generateLValAddress (src/codegen/ir_generator.cpp lines
2233-2390) restricted to the modelled fragment: assignment to a constant is
rejected; an array parameter uses the cached preloaded pointer (returned
bare, or as GEP base without leading zero); a true array uses its cell as
GEP base with a leading zero, or the bare cell; a scalar address is its
cell. -/
def generateLValAddressIR (env : GEnv) (name : String) (idxs : MExprList)
    (sigOf : String → List Bool) (st : GState) : Except String (PtrVal × GState) :=
  match env name with
  | none => .error "Variable not defined"
  | some b =>
    if b.isConst then .error "Cannot assign to constant"
    else if b.isArrayParam then
      match b.cached with
      | none => .error "Array parameter pointer not preloaded"
      | some cp =>
        match idxs with
        | .nil => .ok (.ssa cp, st)
        | .cons e0 t0 => do
            let (ivs, st1) ← generateExprListIR env sigOf (.cons e0 t0) st
            let (r, st2) := freshSSA st1
            .ok (.ssa r, emitIR st2 (.gepI r (.ssa cp) ivs false))
    else if b.isArray then
      match idxs with
      | .nil => .ok (b.ptr, st)
      | .cons e0 t0 => do
          let (ivs, st1) ← generateExprListIR env sigOf (.cons e0 t0) st
          let (r, st2) := freshSSA st1
          .ok (.ssa r, emitIR st2 (.gepI r b.ptr ivs true))
    else
      match idxs with
      | .nil => .ok (b.ptr, st)
      | .cons _ _ => .error "Array index count exceeds array dimensions"
termination_by (sizeOf idxs, 1)

/-- IRGenerator::generateExpr (src/codegen/ir_generator.cpp lines 280-559)
restricted to the modelled fragment: int literals become constants without
emission, lvalues lower through generateLVal, binary operations lower both
operands and emit one arithmetic instruction, calls lower their arguments
(with the pointer-argument address path of generateCallExpr) and emit a
call. -/
def generateExprIR (env : GEnv) (sigOf : String → List Bool) (e : MExpr)
    (st : GState) : Except String (RVal × GState) :=
  match e with
  | .intLit v => .ok (.constI v, st)
  | .lvalE name idxs => generateLValIR env name idxs sigOf st
  | .binE l r => do
      let (lv, st1) ← generateExprIR env sigOf l st
      let (rv, st2) ← generateExprIR env sigOf r st1
      let (res, st3) := freshSSA st2
      .ok (.ssaV res, emitIR st3 (.binopI res lv rv))
  | .callE callee args => do
      let (avs, st1) ← generateCallArgsIR env sigOf (sigOf callee) args st
      let (res, st2) := freshSSA st1
      .ok (.ssaV res, emitIR st2 (.callI res callee avs))
termination_by (sizeOf e, 0)

/-- Sequential lowering of an expression list (lvalue indices). -/
def generateExprListIR (env : GEnv) (sigOf : String → List Bool)
    (es : MExprList) (st : GState) : Except String (List RVal × GState) :=
  match es with
  | .nil => .ok ([], st)
  | .cons e t => do
      let (v, st1) ← generateExprIR env sigOf e st
      let (vs, st2) ← generateExprListIR env sigOf t st1
      .ok (v :: vs, st2)
termination_by (sizeOf es, 0)

/-- The argument loop of IRGenerator::generateCallExpr (src/codegen/
ir_generator.cpp lines 2140-2220): each argument is lowered with
generateExpr; when the callee expects a pointer at that position (the
expected-type test of line 2150, abstracted by the per-position flag) and
the argument is an lvalue, its address is lowered with generateLValAddress
and passed instead; a pointer-expecting position with a non-lvalue argument
is a type error. -/
def generateCallArgsIR (env : GEnv) (sigOf : String → List Bool)
    (flags : List Bool) (args : MExprList) (st : GState) :
    Except String (List RVal × GState) :=
  match args with
  | .nil => .ok ([], st)
  | .cons a t => do
      let (v, st1) ← generateExprIR env sigOf a st
      let r ←
        (if flags.headD false then
          match a with
          | .lvalE name idxs => do
              let (p, st2) ← generateLValAddressIR env name idxs sigOf st1
              .ok (.ptrV p, st2)
          | _ => .error "Type mismatch in function argument"
        else .ok (v, st1))
      let (vs, st3) ← generateCallArgsIR env sigOf (flags.drop 1) t r.2
      .ok (r.1 :: vs, st3)
termination_by (sizeOf args, 1)

end

mutual

/-- IRGenerator::generateStmt (src/codegen/ir_generator.cpp lines 746-1010)
restricted to the modelled fragment.  Assignment lowers the target address,
then the value, then stores (lines 916-921); return lowers its value and
emits ret; if/else and while create fresh blocks, coerce the condition and
branch, closing fall-through blocks with a branch to the join block only
when the current block has no terminator yet; break/continue branch to the
innermost targets and are errors outside a loop (lines 981-1001). -/
def generateStmtIR (env : GEnv) (sigOf : String → List Bool)
    (brks conts : List String) (s : MStmt) (st : GState) : Except String GState :=
  match s with
  | .assignS name idxs rhs => do
      let (addr, st1) ← generateLValAddressIR env name idxs sigOf st
      let (rv, st2) ← generateExprIR env sigOf rhs st1
      .ok (emitIR st2 (.storeI rv addr))
  | .exprS e => do
      let (_, st1) ← generateExprIR env sigOf e st
      .ok st1
  | .retS none => .ok (emitIR st (.retI none))
  | .retS (some e) => do
      let (v, st1) ← generateExprIR env sigOf e st
      .ok (emitIR st1 (.retI (some v)))
  | .ifS cond thenS elseS => do
      let (cv, st1) ← generateExprIR env sigOf cond st
      let (b, st2) := freshSSA st1
      let st3 := emitIR st2 (.cmpZeroI b cv)
      let (thenL, st4) := freshLabel st3 "then"
      let (endL, st5) := freshLabel st4 "endif"
      match elseS with
      | none => do
          let st6 := emitIR st5 (.condbrI b thenL endL)
          let st7 := setBlockIR st6 thenL
          let st8 ← generateStmtIR env sigOf brks conts thenS st7
          let st9 := if st8.terminated then st8 else emitIR st8 (.brI endL)
          .ok (setBlockIR st9 endL)
      | some es => do
          let (elseL, st6) := freshLabel st5 "else"
          let st7 := emitIR st6 (.condbrI b thenL elseL)
          let st8 := setBlockIR st7 thenL
          let st9 ← generateStmtIR env sigOf brks conts thenS st8
          let st10 := if st9.terminated then st9 else emitIR st9 (.brI endL)
          let st11 := setBlockIR st10 elseL
          let st12 ← generateStmtIR env sigOf brks conts es st11
          let st13 := if st12.terminated then st12 else emitIR st12 (.brI endL)
          .ok (setBlockIR st13 endL)
  | .whileS cond body => do
      let (condL, st1) := freshLabel st "whilecond"
      let (loopL, st2) := freshLabel st1 "whileloop"
      let (afterL, st3) := freshLabel st2 "whileafter"
      let st4 := emitIR st3 (.brI condL)
      let st5 := setBlockIR st4 condL
      let (cv, st6) ← generateExprIR env sigOf cond st5
      let (b, st7) := freshSSA st6
      let st8 := emitIR st7 (.cmpZeroI b cv)
      let st9 := emitIR st8 (.condbrI b loopL afterL)
      let st10 := setBlockIR st9 loopL
      let st11 ← generateStmtIR env sigOf (afterL :: brks) (condL :: conts) body st10
      let st12 := if st11.terminated then st11 else emitIR st11 (.brI condL)
      .ok (setBlockIR st12 afterL)
  | .breakS =>
      match brks with
      | [] => .error "Break statement outside of loop"
      | t :: _ => .ok (emitIR st (.brI t))
  | .continueS =>
      match conts with
      | [] => .error "Continue statement outside of loop"
      | t :: _ => .ok (emitIR st (.brI t))
  | .blockS items => generateBlockItemsIR env sigOf brks conts items st

/-- IRGenerator::generateBlock (lines 1013-1037): the body items in order;
declarations (generateDecl, local branch) allocate a fresh stack cell and
bind the name in the current scope; the scope is popped when the block ends
(the caller keeps its own env). -/
def generateBlockItemsIR (env : GEnv) (sigOf : String → List Bool)
    (brks conts : List String) (items : MItems) (st : GState) :
    Except String GState :=
  match items with
  | .nil => .ok st
  | .consStmt s t => do
      let st1 ← generateStmtIR env sigOf brks conts s st
      generateBlockItemsIR env sigOf brks conts t st1
  | .consDeclScalar name t => do
      let (c, st1) := freshCell st
      let st2 := emitIR st1 (.allocaI c)
      generateBlockItemsIR (env.insert name ⟨.cell c, false, false, false, none⟩)
        sigOf brks conts t st2
  | .consDeclArray name t => do
      let (c, st1) := freshCell st
      let st2 := emitIR st1 (.allocaI c)
      generateBlockItemsIR (env.insert name ⟨.cell c, false, true, false, none⟩)
        sigOf brks conts t st2

end

/-- Step 1 of IRGenerator::generateFunction (src/codegen/ir_generator.cpp
lines 1133-1162): for every parameter in order, create an alloca in the
entry block and store the incoming argument into it; collect (name,
isArray, cell). -/
def generateParamAllocas (params : List (String × Bool)) (argIdx : Nat)
    (st : GState) : List (String × Bool × Nat) × GState :=
  match params with
  | [] => ([], st)
  | (name, isArr) :: t =>
      let (c, st1) := freshCell st
      let st2 := emitIR st1 (.allocaI c)
      let st3 := emitIR st2 (.storeArg argIdx (.cell c))
      let (info, st4) := generateParamAllocas t (argIdx + 1) st3
      ((name, isArr, c) :: info, st4)

/-- Step 2 of generateFunction (lines 1164-1188): still in the entry block,
load the stored pointer of every array parameter back out of its cell, and
bind every parameter name (the cached loadedArrayPtr is the loaded SSA
value; array parameters have pointer-typed cells, so isArrayParam holds
exactly for them).  addSymbol rejects a duplicate name within the function
scope. -/
def generateParamPreloads (info : List (String × Bool × Nat)) (env : GEnv)
    (seen : List String) (st : GState) : Except String (GEnv × GState) :=
  match info with
  | [] => .ok (env, st)
  | (name, isArr, c) :: t =>
      if name ∈ seen then .error "Redeclaration of symbol"
      else if isArr then
        let (r, st1) := freshSSA st
        let st2 := emitIR st1 (.loadI r (.cell c))
        generateParamPreloads t
          (env.insert name ⟨.cell c, false, true, true, some r⟩) (name :: seen) st2
      else
        generateParamPreloads t
          (env.insert name ⟨.cell c, false, false, false, none⟩) (name :: seen) st

/-- IRGenerator::generateFunction (lines 1041-1230) for the modelled
fragment: parameter allocas and argument stores, then the entry-block
array-parameter preloads and symbol bindings, then the body block.  The
automatic function-closing return (lines 1201-1213) emits no memory access
and is omitted. -/
def generateFunctionIR (sigOf : String → List Bool) (baseEnv : GEnv)
    (params : List (String × Bool)) (body : MItems) :
    Except String (GEnv × GState) := do
  let st0 : GState := ⟨0, 0, 0, "entry", false, []⟩
  let (info, st1) := generateParamAllocas params 0 st0
  let (env, st2) ← generateParamPreloads info baseEnv [] st1
  let st3 ← generateBlockItemsIR env sigOf [] [] body st2
  .ok (env, st3)

/-- True exactly for a load whose source operand is stack cell c. -/
def isCellLoad (c : Nat) : GInstr → Bool
  | .loadI _ (.cell c2) => c2 = c
  | _ => false

/-- The number of loads of stack cell c in a code sequence. -/
def countCellLoads (c : Nat) (code : List (String × GInstr)) : Nat :=
  (code.filter (fun p => isCellLoad c p.2)).length

/-- The environment invariant of the preload discipline: every binding
whose value pointer is stack cell c is an array-parameter binding (so the
lvalue lowerings take the cached-pointer path and never load cell c). -/
def EnvSafe (env : GEnv) (c : Nat) : Prop :=
  ∀ n b, env n = some b → b.ptr = .cell c → b.isArrayParam = true

theorem countCellLoads_append (c : Nat) (a b : List (String × GInstr)) :
    countCellLoads c (a ++ b) = countCellLoads c a + countCellLoads c b := by
  simp [countCellLoads, List.filter_append]

/-- The no-new-load relation between emission states: the final code
extends the initial code, no load of cell c was added, and the cell counter
did not decrease. -/
def EmitsNoLoad (c : Nat) (st st2 : GState) : Prop :=
  st.code <+: st2.code ∧
    countCellLoads c st2.code = countCellLoads c st.code ∧
    st.nextCell ≤ st2.nextCell

theorem emitsNoLoad_refl (c : Nat) (st : GState) : EmitsNoLoad c st st :=
  ⟨List.prefix_refl _, rfl, le_refl _⟩

theorem emitsNoLoad_trans {c : Nat} {st1 st2 st3 : GState}
    (h1 : EmitsNoLoad c st1 st2) (h2 : EmitsNoLoad c st2 st3) :
    EmitsNoLoad c st1 st3 :=
  ⟨h1.1.trans h2.1, h2.2.1.trans h1.2.1, le_trans h1.2.2 h2.2.2⟩

theorem emitsNoLoad_emit {c : Nat} (st : GState) {i : GInstr}
    (h : isCellLoad c i = false) : EmitsNoLoad c st (emitIR st i) := by
  refine ⟨by simp [emitIR], ?_, by simp [emitIR]⟩
  simp [emitIR, countCellLoads, List.filter_append, List.filter, h]

theorem emitsNoLoad_freshSSA (c : Nat) (st : GState) :
    EmitsNoLoad c st (freshSSA st).2 :=
  ⟨by simp [freshSSA], by simp [freshSSA], by simp [freshSSA]⟩

theorem emitsNoLoad_freshCell (c : Nat) (st : GState) :
    EmitsNoLoad c st (freshCell st).2 :=
  ⟨by simp [freshCell], by simp [freshCell], by simp [freshCell]⟩

theorem emitsNoLoad_freshLabel (c : Nat) (st : GState) (base : String) :
    EmitsNoLoad c st (freshLabel st base).2 :=
  ⟨by simp [freshLabel], by simp [freshLabel], by simp [freshLabel]⟩

theorem emitsNoLoad_setBlock (c : Nat) (st : GState) (b : String) :
    EmitsNoLoad c st (setBlockIR st b) :=
  ⟨by simp [setBlockIR], by simp [setBlockIR], by simp [setBlockIR]⟩

theorem emitsNoLoad_closeBlock (c : Nat) (st : GState) (l : String) :
    EmitsNoLoad c st (if st.terminated then st else emitIR st (.brI l)) := by
  by_cases h : st.terminated
  · simpa [h] using emitsNoLoad_refl c st
  · simpa [h] using emitsNoLoad_emit st (i := .brI l) (by simp [isCellLoad])

theorem isCellLoad_of_ptr_ne {c : Nat} {r : Nat} {p : PtrVal}
    (h : p ≠ PtrVal.cell c) : isCellLoad c (.loadI r p) = false := by
  cases p with
  | cell id =>
      simp [isCellLoad]
      intro heq
      exact h (by rw [heq])
  | globalRef n => rfl
  | ssa id => rfl

set_option maxHeartbeats 1000000 in
mutual

theorem generateLValIR_noLoad {c : Nat} (env : GEnv) (name : String)
    (idxs : MExprList) (sigOf : String → List Bool) (st : GState)
    (res : RVal) (st2 : GState) (hsafe : EnvSafe env c)
    (h : generateLValIR env name idxs sigOf st = .ok (res, st2)) :
    EmitsNoLoad c st st2 := by
  rw [generateLValIR] at h
  rcases henv : env name with _ | b <;> rw [henv] at h
  · simp at h
  · by_cases hap : b.isArrayParam
    · simp only [hap, Bool.false_eq_true, if_true, if_false] at h
      rcases hcp : b.cached with _ | cp <;> rw [hcp] at h
      · simp at h
      · cases idxs with
        | nil =>
            simp only [Except.ok.injEq, Prod.mk.injEq] at h
            rw [← h.2]
            exact emitsNoLoad_refl c st
        | cons e0 t0 =>
            simp only [bind, Except.bind] at h
            rcases hl : generateExprListIR env sigOf (.cons e0 t0) st with e | v <;>
              rw [hl] at h
            · simp at h
            · obtain ⟨ivs, st1⟩ := v
              have ih := generateExprListIR_noLoad env sigOf (.cons e0 t0) st ivs st1
                hsafe hl
              simp only [freshSSA, emitIR, Except.ok.injEq, Prod.mk.injEq] at h
              rw [← h.2]
              refine emitsNoLoad_trans ih ⟨?_, ?_, ?_⟩
              · simp [List.append_assoc]
              · simp [countCellLoads_append, countCellLoads, List.filter, isCellLoad]
              · simp
    · simp only [hap, Bool.false_eq_true, if_true, if_false] at h
      have hptr : b.ptr ≠ PtrVal.cell c := by
        intro hp
        rw [hsafe name b henv hp] at hap
        exact hap rfl
      by_cases har : b.isArray
      · simp only [har, Bool.false_eq_true, if_true, if_false] at h
        cases idxs with
        | nil =>
            simp only [freshSSA, emitIR, Except.ok.injEq, Prod.mk.injEq] at h
            rw [← h.2]
            refine ⟨?_, ?_, ?_⟩
            · simp
            · simp [countCellLoads_append, countCellLoads, List.filter, isCellLoad]
            · simp
        | cons e0 t0 =>
            simp only [bind, Except.bind] at h
            rcases hl : generateExprListIR env sigOf (.cons e0 t0) st with e | v <;>
              rw [hl] at h
            · simp at h
            · obtain ⟨ivs, st1⟩ := v
              have ih := generateExprListIR_noLoad env sigOf (.cons e0 t0) st ivs st1
                hsafe hl
              simp only [freshSSA, emitIR, Except.ok.injEq, Prod.mk.injEq] at h
              rw [← h.2]
              refine emitsNoLoad_trans ih ⟨?_, ?_, ?_⟩
              · simp [List.append_assoc]
              · simp [countCellLoads_append, countCellLoads, List.filter, isCellLoad]
              · simp
      · simp only [har, Bool.false_eq_true, if_true, if_false] at h
        cases idxs with
        | nil =>
            simp only [freshSSA, emitIR, Except.ok.injEq, Prod.mk.injEq] at h
            rw [← h.2]
            refine ⟨?_, ?_, ?_⟩
            · simp
            · simp [countCellLoads_append, countCellLoads, List.filter,
                isCellLoad_of_ptr_ne hptr]
            · simp
        | cons e0 t0 => simp at h
termination_by (sizeOf idxs, 1)
decreasing_by all_goals (subst_vars; decreasing_tactic)

theorem generateLValAddressIR_noLoad {c : Nat} (env : GEnv) (name : String)
    (idxs : MExprList) (sigOf : String → List Bool) (st : GState)
    (res : PtrVal) (st2 : GState) (hsafe : EnvSafe env c)
    (h : generateLValAddressIR env name idxs sigOf st = .ok (res, st2)) :
    EmitsNoLoad c st st2 := by
  rw [generateLValAddressIR] at h
  rcases henv : env name with _ | b <;> rw [henv] at h
  · simp at h
  · by_cases hco : b.isConst
    · simp [hco] at h
    · simp only [hco, Bool.false_eq_true, if_true, if_false] at h
      by_cases hap : b.isArrayParam
      · simp only [hap, Bool.false_eq_true, if_true, if_false] at h
        rcases hcp : b.cached with _ | cp <;> rw [hcp] at h
        · simp at h
        · cases idxs with
          | nil =>
              simp only [Except.ok.injEq, Prod.mk.injEq] at h
              rw [← h.2]
              exact emitsNoLoad_refl c st
          | cons e0 t0 =>
              simp only [bind, Except.bind] at h
              rcases hl : generateExprListIR env sigOf (.cons e0 t0) st with e | v <;>
                rw [hl] at h
              · simp at h
              · obtain ⟨ivs, st1⟩ := v
                have ih := generateExprListIR_noLoad env sigOf (.cons e0 t0) st ivs st1
                  hsafe hl
                simp only [freshSSA, emitIR, Except.ok.injEq, Prod.mk.injEq] at h
                rw [← h.2]
                refine emitsNoLoad_trans ih ⟨?_, ?_, ?_⟩
                · simp
                · simp [countCellLoads_append, countCellLoads, List.filter, isCellLoad]
                · simp
      · simp only [hap, Bool.false_eq_true, if_true, if_false] at h
        by_cases har : b.isArray
        · simp only [har, Bool.false_eq_true, if_true, if_false] at h
          cases idxs with
          | nil =>
              simp only [Except.ok.injEq, Prod.mk.injEq] at h
              rw [← h.2]
              exact emitsNoLoad_refl c st
          | cons e0 t0 =>
              simp only [bind, Except.bind] at h
              rcases hl : generateExprListIR env sigOf (.cons e0 t0) st with e | v <;>
                rw [hl] at h
              · simp at h
              · obtain ⟨ivs, st1⟩ := v
                have ih := generateExprListIR_noLoad env sigOf (.cons e0 t0) st ivs st1
                  hsafe hl
                simp only [freshSSA, emitIR, Except.ok.injEq, Prod.mk.injEq] at h
                rw [← h.2]
                refine emitsNoLoad_trans ih ⟨?_, ?_, ?_⟩
                · simp
                · simp [countCellLoads_append, countCellLoads, List.filter, isCellLoad]
                · simp
        · simp only [har, Bool.false_eq_true, if_true, if_false] at h
          cases idxs with
          | nil =>
              simp only [Except.ok.injEq, Prod.mk.injEq] at h
              rw [← h.2]
              exact emitsNoLoad_refl c st
          | cons e0 t0 => simp at h
termination_by (sizeOf idxs, 1)
decreasing_by all_goals (subst_vars; decreasing_tactic)

theorem generateExprIR_noLoad {c : Nat} (env : GEnv)
    (sigOf : String → List Bool) (e : MExpr) (st : GState)
    (res : RVal) (st2 : GState) (hsafe : EnvSafe env c)
    (h : generateExprIR env sigOf e st = .ok (res, st2)) :
    EmitsNoLoad c st st2 := by
  cases e with
  | intLit v =>
      rw [generateExprIR] at h
      simp only [Except.ok.injEq, Prod.mk.injEq] at h
      rw [← h.2]
      exact emitsNoLoad_refl c st
  | lvalE name idxs =>
      rw [generateExprIR] at h
      exact generateLValIR_noLoad env name idxs sigOf st res st2 hsafe h
  | binE l r =>
      rw [generateExprIR] at h
      simp only [bind, Except.bind] at h
      split at h
      · simp at h
      next v1 heq1 =>
        obtain ⟨lv, st1⟩ := v1
        have ih1 := generateExprIR_noLoad env sigOf l st lv st1 hsafe heq1
        split at h
        · simp at h
        next v2 heq2 =>
          obtain ⟨rv, stB⟩ := v2
          have ih2 := generateExprIR_noLoad env sigOf r st1 rv stB hsafe heq2
          simp only [freshSSA, emitIR, Except.ok.injEq, Prod.mk.injEq] at h
          rw [← h.2]
          refine emitsNoLoad_trans (emitsNoLoad_trans ih1 ih2) ⟨?_, ?_, ?_⟩
          · simp
          · simp [countCellLoads_append, countCellLoads, List.filter, isCellLoad]
          · simp
  | callE callee args =>
      rw [generateExprIR] at h
      simp only [bind, Except.bind] at h
      split at h
      · simp at h
      next v1 heq1 =>
        obtain ⟨avs, st1⟩ := v1
        have ih := generateCallArgsIR_noLoad env sigOf (sigOf callee) args st avs st1
          hsafe heq1
        simp only [freshSSA, emitIR, Except.ok.injEq, Prod.mk.injEq] at h
        rw [← h.2]
        refine emitsNoLoad_trans ih ⟨?_, ?_, ?_⟩
        · simp
        · simp [countCellLoads_append, countCellLoads, List.filter, isCellLoad]
        · simp
termination_by (sizeOf e, 0)

theorem generateExprListIR_noLoad {c : Nat} (env : GEnv)
    (sigOf : String → List Bool) (es : MExprList) (st : GState)
    (res : List RVal) (st2 : GState) (hsafe : EnvSafe env c)
    (h : generateExprListIR env sigOf es st = .ok (res, st2)) :
    EmitsNoLoad c st st2 := by
  cases es with
  | nil =>
      rw [generateExprListIR] at h
      simp only [Except.ok.injEq, Prod.mk.injEq] at h
      rw [← h.2]
      exact emitsNoLoad_refl c st
  | cons e t =>
      rw [generateExprListIR] at h
      simp only [bind, Except.bind] at h
      split at h
      · simp at h
      next v1 heq1 =>
        obtain ⟨v, st1⟩ := v1
        have ih1 := generateExprIR_noLoad env sigOf e st v st1 hsafe heq1
        split at h
        · simp at h
        next v2 heq2 =>
          obtain ⟨vs, stB⟩ := v2
          have ih2 := generateExprListIR_noLoad env sigOf t st1 vs stB hsafe heq2
          simp only [Except.ok.injEq, Prod.mk.injEq] at h
          rw [← h.2]
          exact emitsNoLoad_trans ih1 ih2
termination_by (sizeOf es, 0)

theorem generateCallArgsIR_noLoad {c : Nat} (env : GEnv)
    (sigOf : String → List Bool) (flags : List Bool) (args : MExprList)
    (st : GState) (res : List RVal) (st2 : GState) (hsafe : EnvSafe env c)
    (h : generateCallArgsIR env sigOf flags args st = .ok (res, st2)) :
    EmitsNoLoad c st st2 := by
  cases args with
  | nil =>
      rw [generateCallArgsIR] at h
      simp only [Except.ok.injEq, Prod.mk.injEq] at h
      rw [← h.2]
      exact emitsNoLoad_refl c st
  | cons a t =>
      rw [generateCallArgsIR] at h
      simp only [bind, Except.bind] at h
      split at h
      · simp at h
      next v1 heq1 =>
        obtain ⟨v, st1⟩ := v1
        have ih1 := generateExprIR_noLoad env sigOf a st v st1 hsafe heq1
        by_cases hf : flags.headD false
        · simp only [hf, if_true] at h
          cases a with
          | intLit v2 => simp at h
          | binE l r => simp at h
          | callE c2 a2 => simp at h
          | lvalE name idxs =>
              simp only [bind, Except.bind] at h
              split at h
              · simp at h
              next v2 heq2 =>
                obtain ⟨rv2, stP⟩ := v2
                split at heq2
                · simp at heq2
                next v4 heq4 =>
                  obtain ⟨p, stP2⟩ := v4
                  have ih2 := generateLValAddressIR_noLoad env name idxs sigOf st1 p stP2
                    hsafe heq4
                  simp only [Except.ok.injEq, Prod.mk.injEq] at heq2
                  split at h
                  · simp at h
                  next v3 heq3 =>
                    obtain ⟨vs, stB⟩ := v3
                    have ih3 := generateCallArgsIR_noLoad env sigOf (flags.drop 1) t stP
                      vs stB hsafe heq3
                    simp only [Except.ok.injEq, Prod.mk.injEq] at h
                    rw [← h.2]
                    rw [← heq2.2] at ih3
                    exact emitsNoLoad_trans ih1 (emitsNoLoad_trans ih2 ih3)
        · simp only [hf, Bool.false_eq_true, if_true, if_false] at h
          split at h
          · simp at h
          next v3 heq3 =>
            obtain ⟨vs, stB⟩ := v3
            have ih3 := generateCallArgsIR_noLoad env sigOf (flags.drop 1) t st1
              vs stB hsafe heq3
            simp only [Except.ok.injEq, Prod.mk.injEq] at h
            rw [← h.2]
            exact emitsNoLoad_trans ih1 ih3
termination_by (sizeOf args, 1)

end

/-- Inserting a binding whose pointer is not stack cell c (or which is an
array-parameter binding) preserves the environment invariant. -/
theorem envSafe_insert_ne {env : GEnv} {c : Nat} (hsafe : EnvSafe env c)
    (name : String) (p : PtrVal) (iC iA iAP : Bool) (cch : Option Nat)
    (hb : p ≠ PtrVal.cell c ∨ iAP = true) :
    EnvSafe (env.insert name ⟨p, iC, iA, iAP, cch⟩) c := by
  intro n b2 hl hp
  simp only [GEnv.insert] at hl
  split at hl
  · rw [Option.some.injEq] at hl
    subst hl
    rcases hb with hb | hb
    · exact absurd hp hb
    · exact hb
  · exact hsafe n b2 hl hp

set_option maxHeartbeats 1000000 in
mutual

theorem generateStmtIR_noLoad {c : Nat} (env : GEnv)
    (sigOf : String → List Bool) (brks conts : List String) (s : MStmt)
    (st stOut : GState) (hsafe : EnvSafe env c) (hc : c < st.nextCell)
    (h : generateStmtIR env sigOf brks conts s st = .ok stOut) :
    EmitsNoLoad c st stOut := by
  cases s with
  | assignS name idxs rhs =>
      rw [generateStmtIR] at h
      simp only [bind, Except.bind] at h
      split at h
      · simp at h
      next v1 heq1 =>
        obtain ⟨addr, st1⟩ := v1
        have ih1 := generateLValAddressIR_noLoad env name idxs sigOf st addr st1
          hsafe heq1
        split at h
        · simp at h
        next v2 heq2 =>
          obtain ⟨rv, stB⟩ := v2
          have ih2 := generateExprIR_noLoad env sigOf rhs st1 rv stB hsafe heq2
          simp only [Except.ok.injEq] at h
          rw [← h]
          exact emitsNoLoad_trans ih1 (emitsNoLoad_trans ih2
            (emitsNoLoad_emit stB (by rfl)))
  | exprS e =>
      rw [generateStmtIR] at h
      simp only [bind, Except.bind] at h
      split at h
      · simp at h
      next v1 heq1 =>
        obtain ⟨v, st1⟩ := v1
        have ih1 := generateExprIR_noLoad env sigOf e st v st1 hsafe heq1
        simp only [Except.ok.injEq] at h
        rw [← h]
        exact ih1
  | retS e =>
      cases e with
      | none =>
          rw [generateStmtIR] at h
          simp only [Except.ok.injEq] at h
          rw [← h]
          exact emitsNoLoad_emit st (by rfl)
      | some e0 =>
          rw [generateStmtIR] at h
          simp only [bind, Except.bind] at h
          split at h
          · simp at h
          next v1 heq1 =>
            obtain ⟨v, st1⟩ := v1
            have ih1 := generateExprIR_noLoad env sigOf e0 st v st1 hsafe heq1
            simp only [Except.ok.injEq] at h
            rw [← h]
            exact emitsNoLoad_trans ih1 (emitsNoLoad_emit st1 (by rfl))
  | ifS cond thenS elseS =>
      cases elseS with
      | none =>
          rw [generateStmtIR] at h
          simp only [bind, Except.bind] at h
          split at h
          · simp at h
          next v1 heq1 =>
            obtain ⟨cv, st1⟩ := v1
            have ih1 := generateExprIR_noLoad env sigOf cond st cv st1 hsafe heq1
            split at h
            · simp at h
            next st8 hB =>
              have eAll : EmitsNoLoad c st
                  (setBlockIR
                    (emitIR
                      (freshLabel
                        (freshLabel
                          (emitIR (freshSSA st1).2
                            (GInstr.cmpZeroI (freshSSA st1).1 cv)) "then").2
                        "endif").2
                      (GInstr.condbrI (freshSSA st1).1
                        (freshLabel
                          (emitIR (freshSSA st1).2
                            (GInstr.cmpZeroI (freshSSA st1).1 cv)) "then").1
                        (freshLabel
                          (freshLabel
                            (emitIR (freshSSA st1).2
                              (GInstr.cmpZeroI (freshSSA st1).1 cv)) "then").2
                          "endif").1))
                    (freshLabel
                      (emitIR (freshSSA st1).2
                        (GInstr.cmpZeroI (freshSSA st1).1 cv)) "then").1) :=
                emitsNoLoad_trans ih1 (emitsNoLoad_trans
                  (emitsNoLoad_freshSSA c st1) (emitsNoLoad_trans
                  (emitsNoLoad_emit _ (by rfl)) (emitsNoLoad_trans
                  (emitsNoLoad_freshLabel c _ "then") (emitsNoLoad_trans
                  (emitsNoLoad_freshLabel c _ "endif") (emitsNoLoad_trans
                  (emitsNoLoad_emit _ (by rfl))
                  (emitsNoLoad_setBlock c _ _))))))
              have ih2 := generateStmtIR_noLoad env sigOf brks conts thenS _ st8
                hsafe (by exact lt_of_lt_of_le hc eAll.2.2) hB
              simp only [Except.ok.injEq] at h
              rw [← h]
              exact emitsNoLoad_trans eAll (emitsNoLoad_trans ih2
                (emitsNoLoad_trans (emitsNoLoad_closeBlock c st8 _)
                  (emitsNoLoad_setBlock c _ _)))
      | some es =>
          rw [generateStmtIR] at h
          simp only [bind, Except.bind] at h
          split at h
          · simp at h
          next v1 heq1 =>
            obtain ⟨cv, st1⟩ := v1
            have ih1 := generateExprIR_noLoad env sigOf cond st cv st1 hsafe heq1
            split at h
            · simp at h
            next st9 hB1 =>
              have eAll : EmitsNoLoad c st
                  (setBlockIR
                    (emitIR
                      (freshLabel
                        (freshLabel
                          (freshLabel
                            (emitIR (freshSSA st1).2
                              (GInstr.cmpZeroI (freshSSA st1).1 cv)) "then").2
                          "endif").2
                        "else").2
                      (GInstr.condbrI (freshSSA st1).1
                        (freshLabel
                          (emitIR (freshSSA st1).2
                            (GInstr.cmpZeroI (freshSSA st1).1 cv)) "then").1
                        (freshLabel
                          (freshLabel
                            (freshLabel
                              (emitIR (freshSSA st1).2
                                (GInstr.cmpZeroI (freshSSA st1).1 cv)) "then").2
                            "endif").2
                          "else").1))
                    (freshLabel
                      (emitIR (freshSSA st1).2
                        (GInstr.cmpZeroI (freshSSA st1).1 cv)) "then").1) :=
                emitsNoLoad_trans ih1 (emitsNoLoad_trans
                  (emitsNoLoad_freshSSA c st1) (emitsNoLoad_trans
                  (emitsNoLoad_emit _ (by rfl)) (emitsNoLoad_trans
                  (emitsNoLoad_freshLabel c _ "then") (emitsNoLoad_trans
                  (emitsNoLoad_freshLabel c _ "endif") (emitsNoLoad_trans
                  (emitsNoLoad_freshLabel c _ "else") (emitsNoLoad_trans
                  (emitsNoLoad_emit _ (by rfl))
                  (emitsNoLoad_setBlock c _ _)))))))
              have ih2 := generateStmtIR_noLoad env sigOf brks conts thenS _ st9
                hsafe (by exact lt_of_lt_of_le hc eAll.2.2) hB1
              split at h
              · simp at h
              next st12 hB2 =>
                have eMid : EmitsNoLoad c st
                    (setBlockIR
                      (if st9.terminated = true then st9
                        else emitIR st9
                          (GInstr.brI
                            (freshLabel
                              (freshLabel
                                (emitIR (freshSSA st1).2
                                  (GInstr.cmpZeroI (freshSSA st1).1 cv))
                                "then").2
                              "endif").1))
                      (freshLabel
                        (freshLabel
                          (freshLabel
                            (emitIR (freshSSA st1).2
                              (GInstr.cmpZeroI (freshSSA st1).1 cv)) "then").2
                          "endif").2
                        "else").1) :=
                  emitsNoLoad_trans eAll (emitsNoLoad_trans ih2
                    (emitsNoLoad_trans (emitsNoLoad_closeBlock c st9 _)
                      (emitsNoLoad_setBlock c _ _)))
                have ih3 := generateStmtIR_noLoad env sigOf brks conts es _ st12
                  hsafe (by exact lt_of_lt_of_le hc eMid.2.2) hB2
                simp only [Except.ok.injEq] at h
                rw [← h]
                exact emitsNoLoad_trans eMid (emitsNoLoad_trans ih3
                  (emitsNoLoad_trans (emitsNoLoad_closeBlock c st12 _)
                    (emitsNoLoad_setBlock c _ _)))
  | whileS cond body =>
      rw [generateStmtIR] at h
      simp only [bind, Except.bind] at h
      split at h
      · simp at h
      next v1 heq1 =>
        obtain ⟨cv, st6v⟩ := v1
        have ihc := generateExprIR_noLoad env sigOf cond _ cv st6v hsafe heq1
        split at h
        · simp at h
        next st11 hB =>
          have eAll : EmitsNoLoad c st
              (setBlockIR
                (emitIR
                  (emitIR (freshSSA st6v).2
                    (GInstr.cmpZeroI (freshSSA st6v).1 cv))
                  (GInstr.condbrI (freshSSA st6v).1
                    (freshLabel (freshLabel st "whilecond").2 "whileloop").1
                    (freshLabel
                      (freshLabel (freshLabel st "whilecond").2 "whileloop").2
                      "whileafter").1))
                (freshLabel (freshLabel st "whilecond").2 "whileloop").1) :=
            emitsNoLoad_trans
              (emitsNoLoad_freshLabel c st "whilecond") (emitsNoLoad_trans
              (emitsNoLoad_freshLabel c _ "whileloop") (emitsNoLoad_trans
              (emitsNoLoad_freshLabel c _ "whileafter") (emitsNoLoad_trans
              (emitsNoLoad_emit _ (by rfl)) (emitsNoLoad_trans
              (emitsNoLoad_setBlock c _ _) (emitsNoLoad_trans
              ihc (emitsNoLoad_trans
              (emitsNoLoad_freshSSA c st6v) (emitsNoLoad_trans
              (emitsNoLoad_emit _ (by rfl)) (emitsNoLoad_trans
              (emitsNoLoad_emit _ (by rfl))
              (emitsNoLoad_setBlock c _ _)))))))))
          have ih2 := generateStmtIR_noLoad env sigOf _ _ body _ st11
            hsafe (by exact lt_of_lt_of_le hc eAll.2.2) hB
          simp only [Except.ok.injEq] at h
          rw [← h]
          exact emitsNoLoad_trans eAll (emitsNoLoad_trans ih2
            (emitsNoLoad_trans (emitsNoLoad_closeBlock c st11 _)
              (emitsNoLoad_setBlock c _ _)))
  | breakS =>
      cases brks with
      | nil =>
          rw [generateStmtIR] at h
          simp at h
      | cons t0 tr =>
          rw [generateStmtIR] at h
          simp only [Except.ok.injEq] at h
          rw [← h]
          exact emitsNoLoad_emit st (by rfl)
  | continueS =>
      cases conts with
      | nil =>
          rw [generateStmtIR] at h
          simp at h
      | cons t0 tr =>
          rw [generateStmtIR] at h
          simp only [Except.ok.injEq] at h
          rw [← h]
          exact emitsNoLoad_emit st (by rfl)
  | blockS items =>
      rw [generateStmtIR] at h
      exact generateBlockItemsIR_noLoad env sigOf brks conts items st stOut
        hsafe hc h
termination_by sizeOf s
decreasing_by all_goals (subst_vars; decreasing_tactic)

theorem generateBlockItemsIR_noLoad {c : Nat} (env : GEnv)
    (sigOf : String → List Bool) (brks conts : List String) (items : MItems)
    (st stOut : GState) (hsafe : EnvSafe env c) (hc : c < st.nextCell)
    (h : generateBlockItemsIR env sigOf brks conts items st = .ok stOut) :
    EmitsNoLoad c st stOut := by
  cases items with
  | nil =>
      rw [generateBlockItemsIR] at h
      simp only [Except.ok.injEq] at h
      rw [← h]
      exact emitsNoLoad_refl c st
  | consStmt s t =>
      rw [generateBlockItemsIR] at h
      simp only [bind, Except.bind] at h
      split at h
      · simp at h
      next st1 heq1 =>
        have ih1 := generateStmtIR_noLoad env sigOf brks conts s st st1
          hsafe hc heq1
        have ih2 := generateBlockItemsIR_noLoad env sigOf brks conts t st1 stOut
          hsafe (lt_of_lt_of_le hc ih1.2.2) h
        exact emitsNoLoad_trans ih1 ih2
  | consDeclScalar name t =>
      rw [generateBlockItemsIR] at h
      simp only [freshCell] at h
      have hsafe2 := envSafe_insert_ne hsafe name (.cell st.nextCell)
        false false false none
        (Or.inl (by intro hp; injection hp with h2; omega))
      have ih := generateBlockItemsIR_noLoad _ sigOf brks conts t _ stOut hsafe2
        (Nat.lt_succ_of_lt hc) h
      refine emitsNoLoad_trans ⟨?_, ?_, ?_⟩ ih
      · exact List.prefix_append _ _
      · simp [emitIR, countCellLoads_append, countCellLoads, List.filter,
          isCellLoad]
      · show st.nextCell ≤ st.nextCell + 1
        omega
  | consDeclArray name t =>
      rw [generateBlockItemsIR] at h
      simp only [freshCell] at h
      have hsafe2 := envSafe_insert_ne hsafe name (.cell st.nextCell)
        false true false none
        (Or.inl (by intro hp; injection hp with h2; omega))
      have ih := generateBlockItemsIR_noLoad _ sigOf brks conts t _ stOut hsafe2
        (Nat.lt_succ_of_lt hc) h
      refine emitsNoLoad_trans ⟨?_, ?_, ?_⟩ ih
      · exact List.prefix_append _ _
      · simp [emitIR, countCellLoads_append, countCellLoads, List.filter,
          isCellLoad]
      · show st.nextCell ≤ st.nextCell + 1
        omega
termination_by sizeOf items
decreasing_by all_goals (subst_vars; decreasing_tactic)

end

/-- A Bool-filtered sublist has exactly one element when the map of a key
function over the list is duplicate-free, every element satisfying the
filter has the given key, and some element of the list satisfies it. -/
theorem length_filter_one_of_nodup_map {α β : Type} [DecidableEq β]
    (l : List α) (f : α → β) (p : α → Bool) (k : β)
    (hn : (l.map f).Nodup) (hp : ∀ a, p a = true → f a = k)
    (x : α) (hx : x ∈ l) (hpx : p x = true) :
    (l.filter p).length = 1 := by
  induction l with
  | nil => cases hx
  | cons a t ih =>
      rw [List.map_cons, List.nodup_cons] at hn
      by_cases hpa : p a = true
      · rw [List.filter_cons_of_pos hpa]
        have ht : t.filter p = [] := by
          rw [List.filter_eq_nil_iff]
          intro b hb hpb
          apply hn.1
          rw [hp a hpa, ← hp b hpb]
          exact List.mem_map_of_mem f hb
        rw [ht]
        rfl
      · rw [List.filter_cons_of_neg hpa]
        rcases List.mem_cons.mp hx with rfl | hx2
        · exact absurd hpx hpa
        · exact ih hn.2 hx2

/-- Step 1 of generateFunction characterised: the alloca/store-argument
prologue stays in the current block, allocates one fresh cell per parameter
in order (cells nextCell, nextCell+1, ...), mirrors the parameter names and
array flags in its info list, and emits no load at all. -/
theorem generateParamAllocas_spec (params : List (String × Bool))
    (argIdx : Nat) (st : GState) (info : List (String × Bool × Nat))
    (st4 : GState) (h : generateParamAllocas params argIdx st = (info, st4)) :
    st4.curBlock = st.curBlock ∧
    st4.nextCell = st.nextCell + params.length ∧
    info.map (fun x => (x.1, x.2.1)) = params ∧
    info.map (fun x => x.2.2) = List.range' st.nextCell params.length ∧
    ∃ new, st4.code = st.code ++ new ∧
      (∀ p ∈ new, p.1 = st.curBlock) ∧ ∀ k, countCellLoads k new = 0 := by
  induction params generalizing argIdx st info st4 with
  | nil =>
      rw [generateParamAllocas] at h
      injection h with h1 h2
      subst h1
      subst h2
      exact ⟨rfl, by simp, rfl, rfl, [], by simp, by simp, fun k => rfl⟩
  | cons hd t ih =>
      obtain ⟨name, isArr⟩ := hd
      rw [generateParamAllocas] at h
      simp only [freshCell] at h
      rcases hrec : generateParamAllocas t (argIdx + 1)
          (emitIR (emitIR { st with nextCell := st.nextCell + 1 }
            (.allocaI st.nextCell)) (.storeArg argIdx (.cell st.nextCell)))
        with ⟨info1, st4v⟩
      rw [hrec] at h
      rw [Prod.mk.injEq] at h
      obtain ⟨h1, h2⟩ := h
      have h1b : (name, isArr, st.nextCell) :: info1 = info := h1
      have h2b : st4v = st4 := h2
      subst h1b
      subst h2b
      obtain ⟨hcb, hnc, hnames, hcells, new1, hcode, htags, hcounts⟩ :=
        ih (argIdx + 1) _ info1 st4v hrec
      have hnc2 : st4v.nextCell = st.nextCell + 1 + t.length := hnc
      have hcells2 : info1.map (fun x => x.2.2) =
          List.range' (st.nextCell + 1) t.length := hcells
      have hcode2 : st4v.code =
          (st.code ++ [(st.curBlock, GInstr.allocaI st.nextCell)] ++
            [(st.curBlock, GInstr.storeArg argIdx (PtrVal.cell st.nextCell))]) ++
            new1 := hcode
      have htags2 : ∀ p ∈ new1, p.1 = st.curBlock := htags
      refine ⟨hcb, by simp only [List.length_cons]; omega, ?_, ?_,
        (st.curBlock, GInstr.allocaI st.nextCell) ::
          (st.curBlock, GInstr.storeArg argIdx (PtrVal.cell st.nextCell)) ::
          new1, ?_, ?_, ?_⟩
      · simp only [List.map_cons, hnames]
      · simp only [List.map_cons, hcells2, List.length_cons, List.range'_succ]
      · rw [hcode2]
        simp
      · intro p hp
        rcases List.mem_cons.mp hp with rfl | hp
        · rfl
        rcases List.mem_cons.mp hp with rfl | hp
        · rfl
        · exact htags2 p hp
      · intro k
        have h0 := hcounts k
        simpa [countCellLoads, List.filter, isCellLoad] using h0

/-- Step 2 of generateFunction characterised: the preload pass keeps the
cell counter and current block, appends code in the current block whose
loads of a cell k are exactly one per array-parameter entry with cell k,
leaves bindings of already-seen names unchanged, requires every processed
name to be unseen, only adds bindings whose pointer is the cell of their
own info entry with the matching array-parameter flag, and binds every
array parameter to its cell with some cached loaded SSA value. -/
theorem generateParamPreloads_spec (info : List (String × Bool × Nat))
    (env : GEnv) (seen : List String) (st : GState) (env2 : GEnv)
    (st2 : GState)
    (h : generateParamPreloads info env seen st = .ok (env2, st2)) :
    (st2.nextCell = st.nextCell ∧ st2.curBlock = st.curBlock) ∧
    (∃ new, st2.code = st.code ++ new ∧ (∀ p ∈ new, p.1 = st.curBlock) ∧
      ∀ k, countCellLoads k new =
        (info.filter (fun x => x.2.1 && (x.2.2 == k))).length) ∧
    ((∀ n, n ∈ seen → env2 n = env n) ∧ (∀ x, x ∈ info → x.1 ∉ seen)) ∧
    (∀ n b, env2 n = some b → env n = some b ∨
      ∃ x, x ∈ info ∧ x.1 = n ∧ b.ptr = .cell x.2.2 ∧
        b.isArrayParam = x.2.1) ∧
    (∀ pname cp, (pname, true, cp) ∈ info → pname ∉ seen →
      ∃ r, env2 pname = some ⟨.cell cp, false, true, true, some r⟩) := by
  induction info generalizing env seen st with
  | nil =>
      rw [generateParamPreloads] at h
      simp only [Except.ok.injEq, Prod.mk.injEq] at h
      obtain ⟨rfl, rfl⟩ := h
      refine ⟨⟨rfl, rfl⟩, ⟨[], by simp, by simp, fun k => rfl⟩,
        ⟨fun n _ => rfl, by simp⟩, fun n b hb => Or.inl hb, by simp⟩
  | cons hd t ih =>
      obtain ⟨name, isArr, cell⟩ := hd
      rw [generateParamPreloads] at h
      by_cases hseen : name ∈ seen
      · rw [if_pos hseen] at h
        simp at h
      · rw [if_neg hseen] at h
        cases isArr with
        | true =>
            rw [if_pos rfl] at h
            simp only [freshSSA, emitIR, GInstr.isTerminator,
              Bool.or_false] at h
            obtain ⟨⟨hnc, hcb⟩, ⟨new1, hcode, htags, hcounts⟩,
              ⟨hseenpres, hnotseen⟩, henvc, hlook⟩ := ih _ (name :: seen) _ h
            have hnc2 : st2.nextCell = st.nextCell := hnc
            have hcb2 : st2.curBlock = st.curBlock := hcb
            have hcode2 : st2.code =
                (st.code ++
                  [(st.curBlock, GInstr.loadI st.nextSSA (PtrVal.cell cell))]) ++
                  new1 := hcode
            have htags2 : ∀ p ∈ new1, p.1 = st.curBlock := htags
            refine ⟨⟨hnc2, hcb2⟩,
              ⟨(st.curBlock, GInstr.loadI st.nextSSA (PtrVal.cell cell)) ::
                new1, ?_, ?_, ?_⟩, ⟨?_, ?_⟩, ?_, ?_⟩
            · rw [hcode2]
              simp
            · intro p hp
              rcases List.mem_cons.mp hp with rfl | hp
              · rfl
              · exact htags2 p hp
            · intro k
              have hcnt := hcounts k
              simp only [countCellLoads] at hcnt ⊢
              rw [List.filter_cons, List.filter_cons]
              by_cases hck : cell = k
              · rw [if_pos (by simp [isCellLoad, hck]), if_pos (by simp [hck]),
                  List.length_cons, List.length_cons]
                omega
              · rw [if_neg (by simp [isCellLoad, hck]), if_neg (by simp [hck])]
                omega
            · intro n hn
              rw [hseenpres n (List.mem_cons_of_mem name hn)]
              simp only [GEnv.insert]
              have hne : ¬ n = name := by
                intro hEq
                subst hEq
                exact hseen hn
              rw [if_neg hne]
            · intro x hx
              rcases List.mem_cons.mp hx with rfl | hx2
              · exact hseen
              · exact fun hmem =>
                  hnotseen x hx2 (List.mem_cons_of_mem _ hmem)
            · intro n b hb
              rcases henvc n b hb with hins | ⟨x, hxt, hxn, hxp, hxa⟩
              · simp only [GEnv.insert] at hins
                by_cases hn : n = name
                · rw [if_pos hn] at hins
                  rw [Option.some.injEq] at hins
                  subst hins
                  exact Or.inr ⟨(name, true, cell), List.mem_cons_self _ _,
                    hn.symm, rfl, rfl⟩
                · rw [if_neg hn] at hins
                  exact Or.inl hins
              · exact Or.inr ⟨x, List.mem_cons_of_mem _ hxt, hxn, hxp, hxa⟩
            · intro pname cp hmem2 hns
              rcases List.mem_cons.mp hmem2 with heq | htl
              · have hpn : pname = name := congrArg Prod.fst heq
                have hcp : cp = cell := congrArg (fun y => y.2.2) heq
                subst hpn
                subst hcp
                refine ⟨st.nextSSA, ?_⟩
                rw [hseenpres pname (List.mem_cons_self _ _)]
                simp [GEnv.insert]
              · have hns2 : pname ∉ name :: seen :=
                  hnotseen (pname, true, cp) htl
                exact hlook pname cp htl hns2
        | false =>
            rw [if_neg Bool.false_ne_true] at h
            obtain ⟨⟨hnc, hcb⟩, ⟨new1, hcode, htags, hcounts⟩,
              ⟨hseenpres, hnotseen⟩, henvc, hlook⟩ := ih _ (name :: seen) _ h
            refine ⟨⟨hnc, hcb⟩, ⟨new1, hcode, htags, ?_⟩, ⟨?_, ?_⟩, ?_, ?_⟩
            · intro k
              have hcnt := hcounts k
              rw [List.filter_cons]
              simpa using hcnt
            · intro n hn
              rw [hseenpres n (List.mem_cons_of_mem name hn)]
              simp only [GEnv.insert]
              have hne : ¬ n = name := by
                intro hEq
                subst hEq
                exact hseen hn
              rw [if_neg hne]
            · intro x hx
              rcases List.mem_cons.mp hx with rfl | hx2
              · exact hseen
              · exact fun hmem =>
                  hnotseen x hx2 (List.mem_cons_of_mem _ hmem)
            · intro n b hb
              rcases henvc n b hb with hins | ⟨x, hxt, hxn, hxp, hxa⟩
              · simp only [GEnv.insert] at hins
                by_cases hn : n = name
                · rw [if_pos hn] at hins
                  rw [Option.some.injEq] at hins
                  subst hins
                  exact Or.inr ⟨(name, false, cell), List.mem_cons_self _ _,
                    hn.symm, rfl, rfl⟩
                · rw [if_neg hn] at hins
                  exact Or.inl hins
              · exact Or.inr ⟨x, List.mem_cons_of_mem _ hxt, hxn, hxp, hxa⟩
            · intro pname cp hmem2 hns
              rcases List.mem_cons.mp hmem2 with heq | htl
              · have hbad : true = false := congrArg (fun y => y.2.1) heq
                exact Bool.noConfusion hbad
              · have hns2 : pname ∉ name :: seen :=
                  hnotseen (pname, true, cp) htl
                exact hlook pname cp htl hns2

/-- C8: in the IR generateFunction emits, each array parameter has exactly
one load of its parameter stack cell, the entry-block preload: the emitted
code splits into a prologue (parameter allocas, argument stores, preloads)
followed by the body code, every prologue instruction is in the entry
block, the prologue loads the cell of the given array parameter exactly
once, the body never loads it again (every later access uses the cached
loaded pointer recorded in the binding), and the returned symbol table
binds the parameter to its cell with that cached SSA value. -/
theorem C8_array_param_preload (sigOf : String → List Bool) (baseEnv : GEnv)
    (params : List (String × Bool)) (body : MItems) (pname : String)
    (env : GEnv) (stF : GState)
    (hbase : ∀ n b, baseEnv n = some b → ∀ k, b.ptr ≠ PtrVal.cell k)
    (hmem : (pname, true) ∈ params)
    (h : generateFunctionIR sigOf baseEnv params body = .ok (env, stF)) :
    ∃ cp r proCode bodyCode,
      env pname = some ⟨.cell cp, false, true, true, some r⟩ ∧
      stF.code = proCode ++ bodyCode ∧
      (∀ p ∈ proCode, p.1 = "entry") ∧
      countCellLoads cp proCode = 1 ∧
      countCellLoads cp bodyCode = 0 := by
  rw [generateFunctionIR] at h
  simp only [bind, Except.bind] at h
  rcases hA : generateParamAllocas params 0 ⟨0, 0, 0, "entry", false, []⟩
    with ⟨info, st1⟩
  rw [hA] at h
  split at h
  · simp at h
  next v hP =>
    obtain ⟨envP, st2v⟩ := v
    have hP2 : generateParamPreloads info baseEnv [] st1 = .ok (envP, st2v) := hP
    split at h
    · simp at h
    next st3v hB =>
      have hB2 : generateBlockItemsIR envP sigOf [] [] body st2v = .ok st3v := hB
      simp only [Except.ok.injEq, Prod.mk.injEq] at h
      obtain ⟨h1, h2⟩ := h
      have h1b : envP = env := h1
      have h2b : st3v = stF := h2
      subst h1b
      subst h2b
      obtain ⟨hcb1, hnc1, hnames, hcells, new1, hcode1, htags1, hcounts1⟩ :=
        generateParamAllocas_spec params 0 _ info st1 hA
      obtain ⟨⟨hnc2, hcb2⟩, ⟨new2, hcode2, htags2, hcounts2⟩,
        _hseenpair, henvc, hlook⟩ :=
        generateParamPreloads_spec info baseEnv [] st1 envP st2v hP2
      have hmem2 : (pname, true) ∈ info.map (fun x => (x.1, x.2.1)) := by
        rw [hnames]
        exact hmem
      obtain ⟨x, hxinfo, hxeq⟩ := List.mem_map.mp hmem2
      obtain ⟨nx, ax, cx⟩ := x
      have hnx : nx = pname := congrArg Prod.fst hxeq
      have hax : ax = true := congrArg (fun y => y.2) hxeq
      rw [hnx, hax] at hxinfo
      have hcells2 : info.map (fun x => x.2.2) =
          List.range' 0 params.length := hcells
      have hnodup : (info.map (fun x => x.2.2)).Nodup := by
        rw [hcells2]
        exact List.nodup_range' _ _
      have hcx : cx ∈ List.range' 0 params.length := by
        rw [← hcells2]
        exact List.mem_map_of_mem _ hxinfo
      have hcplt : cx < params.length := by
        rcases List.mem_range'.mp hcx with ⟨i, hi, hieq⟩
        omega
      have hsafeP : EnvSafe envP cx := by
        intro n b hl hp
        rcases henvc n b hl with hbase2 | ⟨x2, hx2info, _, hx2ptr, hx2ap⟩
        · exact absurd hp (hbase n b hbase2 cx)
        · have hcc : x2.2.2 = cx := by
            rw [hp] at hx2ptr
            injection hx2ptr with hcc2
            exact hcc2.symm
          have hxeq2 : x2 = (pname, true, cx) :=
            List.inj_on_of_nodup_map hnodup hx2info hxinfo hcc
          rw [hxeq2] at hx2ap
          exact hx2ap
      have hcnc : cx < st2v.nextCell := by
        have hnc1b : st1.nextCell = 0 + params.length := hnc1
        have hnc2b : st2v.nextCell = st1.nextCell := hnc2
        omega
      have hbody := generateBlockItemsIR_noLoad envP sigOf [] [] body st2v
        st3v hsafeP hcnc hB2
      obtain ⟨bodyCode, hsplit⟩ := hbody.1
      have hcodes : st2v.code = new1 ++ new2 := by
        have hcode1b : st1.code = [] ++ new1 := hcode1
        rw [hcode2, hcode1b]
        simp
      have hfilter :
          (info.filter (fun x => x.2.1 && (x.2.2 == cx))).length = 1 :=
        length_filter_one_of_nodup_map info (fun x => x.2.2)
          (fun x => x.2.1 && (x.2.2 == cx)) cx hnodup
          (fun a ha => by
            simp at ha
            exact ha.2)
          (pname, true, cx) hxinfo (by simp)
      have hpro1 : countCellLoads cx (new1 ++ new2) = 1 := by
        rw [countCellLoads_append, hcounts1 cx, hcounts2 cx, hfilter]
      have hbody0 : countCellLoads cx bodyCode = 0 := by
        have hkeep := hbody.2.1
        rw [← hsplit, countCellLoads_append] at hkeep
        omega
      obtain ⟨r, hbind⟩ := hlook pname cx hxinfo (List.not_mem_nil pname)
      refine ⟨cx, r, new1 ++ new2, bodyCode, hbind, ?_, ?_, hpro1, hbody0⟩
      · rw [← hsplit, hcodes]
      · intro p hp
        rcases List.mem_append.mp hp with hp | hp
        · exact htags1 p hp
        · have hpp := htags2 p hp
          rw [hpp]
          exact hcb1

/-- Signature oracle for the preload witness: no declared functions. -/
def c8sig : String → List Bool := fun _ => []

/-- Base (global) symbol table for the preload witness: empty, so no
binding points at a stack cell. -/
def c8base : GEnv := fun _ => none

/-- Witness body: a single return statement. -/
def c8body : MItems := .consStmt (.retS none) .nil

theorem C8_array_param_preload_witness :
    (∀ n b, c8base n = some b → ∀ k, b.ptr ≠ PtrVal.cell k) ∧
    ((("a", true) : String × Bool) ∈ [(("a", true) : String × Bool)]) ∧
    ∃ env stF,
      generateFunctionIR c8sig c8base [("a", true)] c8body = .ok (env, stF) ∧
      ∃ cp r proCode bodyCode,
        env "a" = some ⟨.cell cp, false, true, true, some r⟩ ∧
        stF.code = proCode ++ bodyCode ∧
        (∀ p ∈ proCode, p.1 = "entry") ∧
        countCellLoads cp proCode = 1 ∧
        countCellLoads cp bodyCode = 0 := by
  have hbase : ∀ n b, c8base n = some b → ∀ k, b.ptr ≠ PtrVal.cell k := by
    intro n b hb k
    simp [c8base] at hb
  have hmem : (("a", true) : String × Bool) ∈ [(("a", true) : String × Bool)] :=
    by simp
  have hok : generateFunctionIR c8sig c8base [("a", true)] c8body =
      .ok (GEnv.insert c8base "a" ⟨.cell 0, false, true, true, some 0⟩,
        ⟨1, 1, 0, "entry", true,
          [("entry", .allocaI 0), ("entry", .storeArg 0 (.cell 0)),
            ("entry", .loadI 0 (.cell 0)), ("entry", .retI none)]⟩) := by
    rfl
  exact ⟨hbase, hmem, _, _, hok,
    C8_array_param_preload c8sig c8base [("a", true)] c8body "a" _ _
      hbase hmem hok⟩
